import Mathlib

/-!
Verification of the vscode-time-tracking session lifecycle and storage engine.

Shallow embedding of the core of the repository:

* `src/services/databaseService.ts` — CSV escaping/parsing, per-day partition
  files, save with backup strategy, legacy migration;
* `src/models/timeTracker.ts` — the session state machine;
* `src/utils/idleDetection.ts` — the idle monitor.

Strings are embedded as `List Char`.  JavaScript `Date` objects are embedded
in two ways: an abstract `DateModel` capturing exactly what the code assumes
of the runtime's ISO-8601 serialization, and a concrete millisecond model for
the partition-key (calendar date) computations.
-/

set_option maxRecDepth 8000

namespace TimeTracking

abbrev Str := List Char

/-! ## CSV field escaping — `DatabaseService.escapeCSV` (databaseService.ts:100-114) -/

/-- The test `stringValue.includes(",") || stringValue.includes('"') ||
stringValue.includes("\n")` from `escapeCSV`. -/
def needsQuote (s : Str) : Bool :=
  s.contains ',' || s.contains '"' || s.contains '\n'

/-- `stringValue.replace(/"/g, '""')`: double every double quote. -/
def escQuotes : Str → Str
  | [] => []
  | c :: rest => if c = '"' then '"' :: '"' :: escQuotes rest else c :: escQuotes rest

/-- `escapeCSV` on an always-present string value. -/
def escRaw (s : Str) : Str :=
  if needsQuote s then '"' :: (escQuotes s ++ ['"']) else s

/-- `escapeCSV(value)` where `value : string | null | undefined`;
`none` embeds `null`/`undefined`. -/
def escapeCSV : Option Str → Str
  | none => []
  | some s => escRaw s

/-! ## CSV value unquoting — `DatabaseService.parseCSVValue` (databaseService.ts:220-231) -/

/-- `value.replace(/""/g, '"')`: left-to-right non-overlapping replacement. -/
def unescQuotes : Str → Str
  | '"' :: '"' :: rest => '"' :: unescQuotes rest
  | c :: rest => c :: unescQuotes rest
  | [] => []

/-- `parseCSVValue`.  Note `value.substring(1, value.length - 1)` on the
one-character string `"` is JS `substring(1, 0)`, which swaps its arguments
and returns the whole string. -/
def parseCSVValue (v : Str) : Str :=
  if v = [] then []
  else if v.head? = some '"' ∧ v.getLast? = some '"' then
    if v.length = 1 then v else unescQuotes ((v.drop 1).dropLast)
  else v

/-! ## CSV line splitting — `DatabaseService.parseCSVLine` (databaseService.ts:236-267) -/

/-- The character loop of `parseCSVLine`: remaining input, `inQuotes`, and the
accumulated `currentField`.  A quote while in quotes looks ahead one
character: a second quote is an escaped quote (consumed together), anything
else (or end of line) toggles quoting off. -/
def csvGo : Str → Bool → Str → List Str
  | [], _, cur => [cur]
  | ['"'], true, cur => csvGo [] false cur
  | '"' :: c2 :: rest2, true, cur =>
    if c2 = '"' then csvGo rest2 true (cur ++ ['"'])
    else csvGo (c2 :: rest2) false cur
  | '"' :: rest, false, cur => csvGo rest true cur
  | c :: rest, inQ, cur =>
    if c = ',' ∧ inQ = false then cur :: csvGo rest inQ []
    else csvGo rest inQ (cur ++ [c])

/-- `parseCSVLine(line)`. -/
def parseCSVLine (line : Str) : List Str := csvGo line false []

/-! ## Line splitting of file contents — `fileContent.split(/\r?\n/)`
(databaseService.ts:279) -/

/-- `split(/\r?\n/)`: a separator is either `"\r\n"` or `"\n"`; a lone
carriage return separates nothing. -/
def splitRN : Str → List Str
  | [] => [[]]
  | '\n' :: rest => [] :: splitRN rest
  | '\r' :: '\n' :: rest => [] :: splitRN rest
  | c :: rest =>
    match splitRN rest with
    | [] => [[c]]
    | f :: fs => (c :: f) :: fs

/-! ## `String.prototype.trim` as used by the empty-line filter
(databaseService.ts:287) -/

/-- JS whitespace as relevant to `trim` (space, tab, LF, CR, VT, FF). -/
def isJsWS (c : Char) : Bool :=
  c = ' ' || c = '\t' || c = '\n' || c = '\r' || c = Char.ofNat 11 || c = Char.ofNat 12

/-- `line.trim()`. -/
def jsTrim (s : Str) : Str :=
  ((s.dropWhile isJsWS).reverse.dropWhile isJsWS).reverse

/-! ## JS number printing and reading for the `duration` field.

`duration` is a JS number; `[...].join(",")` stringifies it and
`Number(values[6])` reads it back.  Sessions carry integral millisecond
durations (`now - startTime`); `none` embeds `NaN`. -/

/-- Decimal digit character. -/
def digitChar : Nat → Char
  | 0 => '0' | 1 => '1' | 2 => '2' | 3 => '3' | 4 => '4'
  | 5 => '5' | 6 => '6' | 7 => '7' | 8 => '8' | _ => '9'

/-- Decimal printing, fueled so that it reduces by structural recursion; the
fuel strictly exceeds the printed number, which suffices since `n / 10 < n`
for `n ≥ 10`. -/
def natReprGo : Nat → Nat → Str
  | 0, _ => []
  | f + 1, n =>
    if n < 10 then [digitChar n]
    else natReprGo f (n / 10) ++ [digitChar (n % 10)]

/-- Decimal printing of a natural number, most significant digit first. -/
def natRepr (n : Nat) : Str := natReprGo (n + 1) n

/-- Numeric value of a digit character. -/
def digitVal (c : Char) : Nat := c.toNat - 48

/-- Read a nonempty all-digit string as a natural number. -/
def natParse (l : Str) : Option Nat :=
  if l ≠ [] ∧ l.all (fun c => c.isDigit) then
    some (l.foldl (fun a c => 10 * a + digitVal c) 0)
  else none

/-- Stringification of an integral JS number (`String(n)` / `join`). -/
def jsIntRepr (i : Int) : Str :=
  if i < 0 then '-' :: natRepr i.natAbs else natRepr i.natAbs

/-- Stringification of the `duration` field; `none` embeds `NaN`, which JS
prints as `"NaN"`. -/
def jsNumRepr : Option Int → Str
  | none => ['N', 'a', 'N']
  | some n => jsIntRepr n

/-- `Number(string)` restricted to the shapes this program produces: the empty
string is `0`, `"NaN"` is `NaN`, otherwise an optionally-signed decimal
integer; anything else is `NaN` (`none`). -/
def jsNumber (l : Str) : Option Int :=
  if l = [] then some 0
  else if l = ['N', 'a', 'N'] then none
  else match l with
    | '-' :: rest => (natParse rest).map (fun n => -(n : Int))
    | _ => (natParse l).map (fun n => (n : Int))

/-! ## Dates

`Date.prototype.toISOString` and `new Date(string)` are JS runtime
functionality, not repository code.

Modelled from the spec: "Timestamps serialize as ISO-8601 strings" and
parsing reads them back.  The abstract `DateModel` captures exactly the
runtime guarantees the repository relies on: parsing an ISO string returns
the serialized instant, and ISO strings are nonempty and contain no comma,
double quote, or newline.  `none` in a parse result embeds a JS
`Invalid Date`. -/

structure DateModel (D : Type) where
  toISO : D → Str
  fromString : Str → Option D
  round : ∀ d, fromString (toISO d) = some d
  clean : ∀ d, needsQuote (toISO d) = false
  nonempty : ∀ d, toISO d ≠ []

/-! ## The TimeSession record — timeTracker.ts:7-17

String fields are `Str`; `startTime : Option D` embeds a JS `Date` that may
be an `Invalid Date` (`none`); `endTime`'s outer `Option` embeds
presence/`undefined` and its inner `Option` validity; `duration : Option Int`
embeds an integral JS number or `NaN` (`none`). -/

structure Session (D : Type) where
  id : Str
  fileName : Str
  filePath : Str
  project : Str
  startTime : Option D
  endTime : Option (Option D)
  duration : Option Int
  category : Option Str
  notes : Option Str
  deriving DecidableEq

/-! ## Serialization — `DatabaseService.saveSessionsToFile` (databaseService.ts:159-178) -/

/-- The fixed `CSV_HEADER` (databaseService.ts:13-14). -/
def HEADER : Str :=
  "id,fileName,filePath,project,startTime,endTime,duration,category,notes".toList

/-- One data row, the `join(",")` of databaseService.ts:166-176.  `none`
embeds the exception thrown by `toISOString()` on an `Invalid Date` (the
`endTime` truthiness check passes for an invalid date object, so an invalid
`endTime` also throws). -/
def lineOf {D : Type} (DM : DateModel D) (s : Session D) : Option Str :=
  match s.startTime, s.endTime with
  | none, _ => none
  | some _, some none => none
  | some t, _ =>
    let endStr : Str := match s.endTime with
      | some (some e) => DM.toISO e
      | _ => []
    some (s.id ++ ',' :: escapeCSV (some s.fileName) ++
      ',' :: escapeCSV (some s.filePath) ++
      ',' :: escapeCSV (some s.project) ++
      ',' :: DM.toISO t ++
      ',' :: endStr ++
      ',' :: jsNumRepr s.duration ++
      ',' :: escapeCSV s.category ++
      ',' :: escapeCSV s.notes)

/-- All data rows, each terminated by `"\n"`; `none` if any row throws. -/
def rowsOf {D : Type} (DM : DateModel D) : List (Session D) → Option Str
  | [] => some []
  | s :: rest =>
    match lineOf DM s, rowsOf DM rest with
    | some l, some r => some (l ++ '\n' :: r)
    | _, _ => none

/-- The whole file content built by `saveSessionsToFile`: header line then one
row per session. -/
def saveContentOf {D : Type} (DM : DateModel D) (sessions : List (Session D)) :
    Option Str :=
  (rowsOf DM sessions).map (fun r => HEADER ++ '\n' :: r)

/-! ## Parsing a record — `DatabaseService.loadSessionsFromFile`
(databaseService.ts:286-302) -/

/-- Build a session record from the parsed fields of one line.  `none` embeds
the `TypeError` thrown by `parseCSVValue(undefined)` when the line has fewer
than four fields (`values[1]`..`values[3]` are passed to `parseCSVValue`
unconditionally); all later accesses are guarded by truthiness checks or
tolerate `undefined` (`new Date(undefined)` and `Number(undefined)` yield
`Invalid Date` and `NaN`). -/
def mkSession {D : Type} (DM : DateModel D) (values : List Str) :
    Option (Session D) :=
  if values.length < 4 then none
  else some
    { id := values.getD 0 []
      fileName := parseCSVValue (values.getD 1 [])
      filePath := parseCSVValue (values.getD 2 [])
      project := parseCSVValue (values.getD 3 [])
      startTime := DM.fromString (values.getD 4 [])
      endTime :=
        if values.getD 5 [] = [] then none
        else some (DM.fromString (values.getD 5 []))
      duration := jsNumber (values.getD 6 [])
      category :=
        if values.getD 7 [] = [] then none
        else some (parseCSVValue (values.getD 7 []))
      notes :=
        if values.getD 8 [] = [] then none
        else some (parseCSVValue (values.getD 8 [])) }

/-- `loadSessionsFromFile` applied to existing file content: split lines, drop
the header, drop blank lines, parse each.  A thrown `TypeError` on any line is
caught by the surrounding `try`, so the whole load returns `[]`. -/
def loadContent {D : Type} (DM : DateModel D) (content : Str) : List (Session D) :=
  let rows := ((splitRN content).tail).filter (fun l => jsTrim l ≠ [])
  match rows.mapM (fun l => mkSession DM (parseCSVLine l)) with
  | some sessions => sessions
  | none => []

/-! ## A concrete `DateModel` used to instantiate witnesses: a date is any
nonempty string free of separators, serialized as itself. -/

/-- Validity predicate of the witness date model. -/
def dateOk (l : Str) : Bool := !l.isEmpty && !needsQuote l

/-- The witness date model's carrier. -/
def DStr : Type := {l : Str // dateOk l = true}

instance : DecidableEq DStr := fun a b =>
  decidable_of_iff (a.val = b.val) Subtype.ext_iff.symm

/-- The witness date model: serialization is the identity on valid strings. -/
def strDM : DateModel DStr where
  toISO d := d.val
  fromString s := if h : dateOk s = true then some ⟨s, h⟩ else none
  round d := by
    have h := d.property
    simp only [h]
    rfl
  clean d := by
    have h := d.property
    simp only [dateOk, Bool.and_eq_true, Bool.not_eq_true'] at h
    exact h.2
  nonempty d := by
    have h := d.property
    simp only [dateOk, Bool.and_eq_true, Bool.not_eq_true'] at h
    intro hc
    simp [hc] at h

/-! ## Behavior of the CSV line parser on serialized fields -/

theorem csvGo_nil (inQ : Bool) (cur : Str) : csvGo [] inQ cur = [cur] := by
  cases inQ <;> rfl

theorem csvGo_quote_inQ_quote (rest : Str) (cur : Str) :
    csvGo ('"' :: '"' :: rest) true cur = csvGo rest true (cur ++ ['"']) := rfl

theorem csvGo_quote_inQ_other (c : Char) (rest : Str) (cur : Str) (h : c ≠ '"') :
    csvGo ('"' :: c :: rest) true cur = csvGo (c :: rest) false cur := by
  show (if c = '"' then csvGo rest true (cur ++ ['"'])
    else csvGo (c :: rest) false cur) = csvGo (c :: rest) false cur
  rw [if_neg h]

theorem csvGo_quote_inQ_nil (cur : Str) : csvGo ['"'] true cur = [cur] := rfl

theorem csvGo_quote_open (rest : Str) (cur : Str) :
    csvGo ('"' :: rest) false cur = csvGo rest true cur := by
  cases rest <;> rfl

theorem csvGo_comma (rest : Str) (cur : Str) :
    csvGo (',' :: rest) false cur = cur :: csvGo rest false [] := by
  cases rest <;> rfl

theorem csvGo_other (c : Char) (rest : Str) (inQ : Bool) (cur : Str)
    (hq : c ≠ '"') (hc : ¬(c = ',' ∧ inQ = false)) :
    csvGo (c :: rest) inQ cur = csvGo rest inQ (cur ++ [c]) := by
  rw [csvGo.eq_def]
  split <;> simp_all

/-- Inside a quoted segment, the doubled-quote encoding of `v` is consumed,
appending the original `v`, and the closing quote returns to unquoted mode
(provided what follows the closing quote is not another quote). -/
theorem csvGo_escQuotes (v : Str) (rest : Str) (cur : Str)
    (h : rest.head? ≠ some '"') :
    csvGo (escQuotes v ++ '"' :: rest) true cur = csvGo rest false (cur ++ v) := by
  induction v generalizing cur with
  | nil =>
    simp only [escQuotes, List.nil_append, List.append_nil]
    cases rest with
    | nil => rw [csvGo_quote_inQ_nil, csvGo_nil]
    | cons c2 rest2 =>
      have hc2 : c2 ≠ '"' := by
        intro hc; apply h; simp [hc]
      rw [csvGo_quote_inQ_other c2 rest2 cur hc2]
  | cons c v' ih =>
    by_cases hc : c = '"'
    · subst hc
      rw [show escQuotes ('"' :: v') = '"' :: '"' :: escQuotes v' from by simp [escQuotes]]
      rw [List.cons_append, List.cons_append, csvGo_quote_inQ_quote, ih, List.append_assoc]
      rfl
    · rw [show escQuotes (c :: v') = c :: escQuotes v' from by simp [escQuotes, hc]]
      rw [List.cons_append, csvGo_other c _ true cur hc (by simp), ih, List.append_assoc]
      rfl

/-- A run of characters free of quotes and commas is consumed verbatim in
unquoted mode. -/
theorem csvGo_plain (v : Str) (rest : Str) (cur : Str)
    (h : ∀ c ∈ v, c ≠ '"' ∧ c ≠ ',') :
    csvGo (v ++ rest) false cur = csvGo rest false (cur ++ v) := by
  induction v generalizing cur with
  | nil => simp
  | cons c v' ih =>
    have hc := h c (by simp)
    rw [List.cons_append, csvGo_other c _ false cur hc.1 (by simp [hc.2]),
      ih (cur ++ [c]) (fun x hx => h x (List.mem_cons_of_mem c hx)), List.append_assoc]
    rfl

theorem needsQuote_eq_false_iff (v : Str) :
    needsQuote v = false ↔ (',' ∉ v ∧ '"' ∉ v ∧ '\n' ∉ v) := by
  simp [needsQuote, List.elem_iff]
  tauto

theorem noCQ_of_needsQuote_false {v : Str} (h : needsQuote v = false) :
    ∀ c ∈ v, c ≠ '"' ∧ c ≠ ',' := by
  have hm := (needsQuote_eq_false_iff v).mp h
  intro c hc
  exact ⟨fun he => hm.2.1 (he ▸ hc), fun he => hm.1 (he ▸ hc)⟩

theorem escRaw_quoted_append {v : Str} (hn : needsQuote v = true) (rest : Str) :
    escRaw v ++ rest = '"' :: (escQuotes v ++ '"' :: rest) := by
  simp [escRaw, hn]

/-- An `escapeCSV`-encoded field followed by a comma parses back to the
original field value. -/
theorem csvGo_escRaw_comma (v : Str) (rest : Str) (cur : Str) :
    csvGo (escRaw v ++ ',' :: rest) false cur = (cur ++ v) :: csvGo rest false [] := by
  by_cases hn : needsQuote v
  · rw [escRaw_quoted_append hn, csvGo_quote_open,
      csvGo_escQuotes v (',' :: rest) cur (by simp), csvGo_comma]
  · rw [show escRaw v = v from by simp [escRaw, hn],
      csvGo_plain v _ cur (noCQ_of_needsQuote_false (by simpa using hn)), csvGo_comma]

/-- An `escapeCSV`-encoded field at the end of the line parses back to the
original field value. -/
theorem csvGo_escRaw_last (v : Str) (cur : Str) :
    csvGo (escRaw v) false cur = [cur ++ v] := by
  by_cases hn : needsQuote v
  · rw [show escRaw v = escRaw v ++ [] from by simp, escRaw_quoted_append hn,
      csvGo_quote_open, csvGo_escQuotes v [] cur (by simp), csvGo_nil]
  · rw [show escRaw v = v ++ [] from by simp [escRaw, hn],
      csvGo_plain v [] cur (noCQ_of_needsQuote_false (by simpa using hn)), csvGo_nil]

/-- A verbatim (unescaped) clean field followed by a comma. -/
theorem csvGo_clean_comma (v : Str) (rest : Str) (cur : Str)
    (h : needsQuote v = false) :
    csvGo (v ++ ',' :: rest) false cur = (cur ++ v) :: csvGo rest false [] := by
  rw [csvGo_plain v _ cur (noCQ_of_needsQuote_false h), csvGo_comma]

/-! ## Round trip of JS number stringification -/

theorem digitChar_isDigit (n : Nat) : (digitChar n).isDigit = true := by
  unfold digitChar
  split <;> decide

theorem digitVal_digitChar {n : Nat} (h : n < 10) : digitVal (digitChar n) = n := by
  interval_cases n <;> decide

theorem natReprGo_congr : ∀ (f1 : Nat) {f2 n : Nat}, n < f1 → n < f2 →
    natReprGo f1 n = natReprGo f2 n := by
  intro f1
  induction f1 with
  | zero => intro f2 n h1; omega
  | succ f1 ih =>
    intro f2 n h1 h2
    rcases f2 with _ | f2
    · omega
    · show natReprGo (f1 + 1) n = natReprGo (f2 + 1) n
      by_cases h : n < 10
      · simp only [natReprGo, if_pos h]
      · have hdiv : n / 10 < n := Nat.div_lt_self (by omega) (by omega)
        simp only [natReprGo, if_neg h]
        rw [@ih f2 (n / 10) (by omega) (by omega)]

/-- The mathematical unfolding of `natRepr`. -/
theorem natRepr_eq (n : Nat) : natRepr n =
    if n < 10 then [digitChar n]
    else natRepr (n / 10) ++ [digitChar (n % 10)] := by
  show natReprGo (n + 1) n = _
  by_cases h : n < 10
  · simp only [natReprGo, if_pos h]
  · have hdiv : n / 10 < n := Nat.div_lt_self (by omega) (by omega)
    simp only [natReprGo, if_neg h]
    rw [@natReprGo_congr n (n / 10 + 1) (n / 10) (by omega) (by omega)]
    rfl

theorem natRepr_ne_nil (n : Nat) : natRepr n ≠ [] := by
  rw [natRepr_eq]
  split <;> simp

theorem natRepr_all_digits (n : Nat) : ∀ c ∈ natRepr n, c.isDigit = true := by
  induction n using Nat.strong_induction_on with
  | _ n ih =>
    rw [natRepr_eq]
    by_cases h : n < 10
    · rw [if_pos h]
      intro c hc
      simp at hc
      exact hc ▸ digitChar_isDigit n
    · rw [if_neg h]
      intro c hc
      rcases List.mem_append.mp hc with h1 | h2
      · exact ih (n / 10) (Nat.div_lt_self (by omega) (by omega)) c h1
      · simp at h2
        exact h2 ▸ digitChar_isDigit _

theorem foldl_natRepr (n : Nat) :
    ∀ a : Nat, (natRepr n).foldl (fun a c => 10 * a + digitVal c) a =
      a * 10 ^ (natRepr n).length + n := by
  induction n using Nat.strong_induction_on with
  | _ n ih =>
    by_cases h : n < 10
    · intro a
      rw [natRepr_eq, if_pos h]
      simp [digitVal_digitChar h]
      ring
    · intro a
      rw [natRepr_eq, if_neg h]
      rw [List.foldl_append, ih (n / 10) (Nat.div_lt_self (by omega) (by omega)) a]
      simp only [List.foldl_cons, List.foldl_nil, List.length_append,
        List.length_cons, List.length_nil, Nat.zero_add]
      rw [digitVal_digitChar (Nat.mod_lt n (by omega)), pow_succ, ← mul_assoc]
      have hdm := Nat.div_add_mod n 10
      generalize a * 10 ^ (natRepr (n / 10)).length = Q
      omega

theorem natParse_natRepr (n : Nat) : natParse (natRepr n) = some n := by
  unfold natParse
  rw [if_pos]
  · have := foldl_natRepr n 0
    simp at this
    simp [this]
  · refine ⟨natRepr_ne_nil n, ?_⟩
    rw [List.all_eq_true]
    exact natRepr_all_digits n

theorem isDigit_ne_special {c : Char} (h : c.isDigit = true) :
    c ≠ ',' ∧ c ≠ '"' ∧ c ≠ '\n' ∧ c ≠ '-' ∧ c ≠ 'N' := by
  refine ⟨?_, ?_, ?_, ?_, ?_⟩ <;> (intro he; rw [he] at h; simp at h)

theorem natRepr_head_digit (n : Nat) :
    ∃ c cs, natRepr n = c :: cs ∧ c.isDigit = true := by
  rcases he : natRepr n with _ | ⟨c, cs⟩
  · exact absurd he (natRepr_ne_nil n)
  · exact ⟨c, cs, rfl, natRepr_all_digits n c (by rw [he]; simp)⟩

theorem jsNumber_natRepr (n : Nat) : jsNumber (natRepr n) = some (n : Int) := by
  obtain ⟨c, cs, he, hd⟩ := natRepr_head_digit n
  have hspec := isDigit_ne_special hd
  unfold jsNumber
  rw [he]
  rw [if_neg (by simp), if_neg (by
    intro hc
    have h1 : c = 'N' := by injection hc
    exact hspec.2.2.2.2 h1)]
  split
  · rename_i rest heq
    have h1 : c = '-' := by injection heq
    exact absurd h1 hspec.2.2.2.1
  · rw [← he, natParse_natRepr]
    rfl

theorem jsNumber_jsNumRepr (d : Option Int) : jsNumber (jsNumRepr d) = d := by
  cases d with
  | none => rfl
  | some n =>
    show jsNumber (jsIntRepr n) = some n
    unfold jsIntRepr
    by_cases hn : n < 0
    · rw [if_pos hn]
      unfold jsNumber
      rw [if_neg (by simp), if_neg (by
        intro hc
        have h1 : '-' = 'N' := by injection hc
        exact absurd h1 (by decide))]
      split
      · rename_i rest heq
        have h1 : rest = natRepr n.natAbs := by injection heq with _ h2; exact h2.symm
        subst h1
        rw [natParse_natRepr]
        show Option.map (fun k => -k) ((some ((n.natAbs : Nat) : Int))) = some n
        rw [Option.map_some']
        rw [Option.some.injEq]
        omega
      · rename_i hno
        exact absurd rfl (hno (natRepr n.natAbs))
    · rw [if_neg hn, jsNumber_natRepr]
      congr 1
      omega

theorem needsQuote_natRepr (n : Nat) : needsQuote (natRepr n) = false := by
  rw [needsQuote_eq_false_iff]
  refine ⟨?_, ?_, ?_⟩ <;>
    (intro hc; have := isDigit_ne_special (natRepr_all_digits n _ hc); simp_all)

theorem needsQuote_jsNumRepr (d : Option Int) : needsQuote (jsNumRepr d) = false := by
  cases d with
  | none => decide
  | some n =>
    show needsQuote (jsIntRepr n) = false
    unfold jsIntRepr
    by_cases hn : n < 0
    · rw [if_pos hn, needsQuote_eq_false_iff]
      have h := (needsQuote_eq_false_iff _).mp (needsQuote_natRepr n.natAbs)
      refine ⟨?_, ?_, ?_⟩ <;> (intro hc; simp at hc) <;> tauto
    · rw [if_neg hn]; exact needsQuote_natRepr n.natAbs

/-! ## Parsing a serialized row recovers the raw field values -/

/-- The serialized `endTime` column (`session.endTime ?
session.endTime.toISOString() : ""` on a serializable session). -/
def endStrOf {D : Type} (DM : DateModel D) : Option (Option D) → Str
  | some (some e) => DM.toISO e
  | _ => []

theorem needsQuote_endStrOf {D : Type} (DM : DateModel D) (et : Option (Option D)) :
    needsQuote (endStrOf DM et) = false := by
  rcases et with _ | (_ | e)
  · rfl
  · rfl
  · exact DM.clean e

theorem lineOf_eq {D : Type} (DM : DateModel D) (s : Session D) (t : D)
    (hstart : s.startTime = some t) (hend : s.endTime ≠ some none) :
    lineOf DM s = some (s.id ++ ',' :: (escRaw s.fileName ++ ',' ::
      (escRaw s.filePath ++ ',' :: (escRaw s.project ++ ',' :: (DM.toISO t ++ ',' ::
      (endStrOf DM s.endTime ++ ',' :: (jsNumRepr s.duration ++ ',' ::
      (escapeCSV s.category ++ ',' :: escapeCSV s.notes)))))))) := by
  unfold lineOf
  rw [hstart]
  rcases he : s.endTime with _ | (_ | e)
  · simp [endStrOf, he, escapeCSV, List.append_assoc]
  · exact absurd he hend
  · simp [endStrOf, he, escapeCSV, List.append_assoc]

theorem csvGo_escapeCSV_comma (o : Option Str) (rest : Str) (cur : Str) :
    csvGo (escapeCSV o ++ ',' :: rest) false cur =
      (cur ++ o.getD []) :: csvGo rest false [] := by
  cases o with
  | none => simp [escapeCSV, csvGo_comma]
  | some v => exact csvGo_escRaw_comma v rest cur

theorem csvGo_escapeCSV_last (o : Option Str) (cur : Str) :
    csvGo (escapeCSV o) false cur = [cur ++ o.getD []] := by
  cases o with
  | none => simp [escapeCSV, csvGo_nil]
  | some v => exact csvGo_escRaw_last v cur

/-- Parsing a serialized row yields exactly the nine raw column values. -/
theorem parseCSVLine_lineOf {D : Type} (DM : DateModel D) (s : Session D) (t : D)
    (hstart : s.startTime = some t) (hend : s.endTime ≠ some none)
    (hid : needsQuote s.id = false) (line : Str) (hline : lineOf DM s = some line) :
    parseCSVLine line = [s.id, s.fileName, s.filePath, s.project, DM.toISO t,
      endStrOf DM s.endTime, jsNumRepr s.duration,
      s.category.getD [], s.notes.getD []] := by
  rw [lineOf_eq DM s t hstart hend] at hline
  have hl : line = _ := (Option.some.injEq _ _).mp hline.symm
  subst hl
  unfold parseCSVLine
  rw [csvGo_clean_comma _ _ _ hid,
    csvGo_escRaw_comma, csvGo_escRaw_comma, csvGo_escRaw_comma,
    csvGo_clean_comma _ _ _ (DM.clean t),
    csvGo_clean_comma _ _ _ (needsQuote_endStrOf DM s.endTime),
    csvGo_clean_comma _ _ _ (needsQuote_jsNumRepr s.duration),
    csvGo_escapeCSV_comma, csvGo_escapeCSV_last]
  simp

/-! ## Well-behaved sessions: the conditions under which the partition
encoding round-trips -/

/-- A string field that survives the loader's post-split `parseCSVValue` and
contains no newline (newlines inside quoted fields are destroyed by the
line-split of the file reader). -/
def goodStr (v : Str) : Prop := '\n' ∉ v ∧ parseCSVValue v = v

instance : DecidablePred goodStr := fun v =>
  inferInstanceAs (Decidable (_ ∧ _))

/-- An optional field that is either absent or a nonempty well-behaved
string (an empty present value reads back as absent). -/
def goodOpt : Option Str → Prop
  | none => True
  | some c => c ≠ [] ∧ goodStr c

instance : DecidablePred goodOpt := fun o =>
  match o with
  | none => isTrue trivial
  | some c => inferInstanceAs (Decidable (_ ∧ _))

/-- Sessions whose serialized row is parsed back unchanged by
`loadSessionsFromFile`. -/
def goodSession {D : Type} (s : Session D) : Prop :=
  needsQuote s.id = false ∧
  goodStr s.fileName ∧ goodStr s.filePath ∧ goodStr s.project ∧
  s.startTime.isSome = true ∧ s.endTime ≠ some none ∧
  goodOpt s.category ∧ goodOpt s.notes ∧
  (escapeCSV s.notes).getLast? ≠ some '\r'

instance {D : Type} [DecidableEq D] : DecidablePred (goodSession (D := D)) :=
  fun _ => inferInstanceAs (Decidable (_ ∧ _))

/-- Rebuilding a session from its own parsed row is the identity on
well-behaved sessions. -/
theorem mkSession_lineOf {D : Type} (DM : DateModel D) (s : Session D)
    (hg : goodSession s) (line : Str) (hline : lineOf DM s = some line) :
    mkSession DM (parseCSVLine line) = some s := by
  obtain ⟨hid, hf1, hf2, hf3, hstart, hend, hcat, hnotes, _⟩ := hg
  obtain ⟨t, ht⟩ := Option.isSome_iff_exists.mp hstart
  rw [parseCSVLine_lineOf DM s t ht hend hid line hline]
  unfold mkSession
  rw [if_neg (by simp)]
  obtain ⟨id0, fn0, fp0, pr0, st0, et0, du0, ca0, no0⟩ := s
  simp only at hid hf1 hf2 hf3 hend hcat hnotes ht ⊢
  subst ht
  simp only [List.getD_cons_zero, List.getD_cons_succ, Option.some.injEq,
    Session.mk.injEq]
  refine ⟨trivial, hf1.2, hf2.2, hf3.2, DM.round t, ?_, jsNumber_jsNumRepr du0, ?_, ?_⟩
  · rcases et0 with _ | (_ | e)
    · simp [endStrOf]
    · exact absurd rfl hend
    · simp [endStrOf, DM.nonempty e, DM.round e]
  · rcases ca0 with _ | c
    · simp
    · obtain ⟨hne, _, hfix⟩ := hcat
      simp [hne, hfix]
  · rcases no0 with _ | c
    · simp
    · obtain ⟨hne, _, hfix⟩ := hnotes
      simp [hne, hfix]

/-! ## Splitting the file back into lines -/

theorem mem_escQuotes {c : Char} (hc : c ≠ '"') (v : Str) :
    c ∈ escQuotes v ↔ c ∈ v := by
  induction v with
  | nil => simp [escQuotes]
  | cons x xs ih =>
    by_cases hx : x = '"'
    · subst hx
      simp [escQuotes, ih, hc]
    · simp [escQuotes, hx, ih]

theorem not_mem_escRaw {c : Char} (hc : c ≠ '"') {v : Str} (hv : c ∉ v) :
    c ∉ escRaw v := by
  unfold escRaw
  by_cases hn : needsQuote v
  · rw [if_pos hn]
    simp [hc, (mem_escQuotes hc v), hv]
  · rw [if_neg hn]
    exact hv

theorem not_mem_escapeCSV {c : Char} (hc : c ≠ '"') {o : Option Str}
    (ho : ∀ v, o = some v → c ∉ v) : c ∉ escapeCSV o := by
  cases o with
  | none => simp [escapeCSV]
  | some v => exact not_mem_escRaw hc (ho v rfl)

theorem no_nl_of_needsQuote_false {v : Str} (h : needsQuote v = false) :
    '\n' ∉ v :=
  ((needsQuote_eq_false_iff v).mp h).2.2

/-- Under the well-behavedness conditions a serialized row contains no
newline (so the loader's line split leaves it intact). -/
theorem lineOf_no_newline {D : Type} (DM : DateModel D) (s : Session D)
    (hg : goodSession s) (line : Str) (hline : lineOf DM s = some line) :
    '\n' ∉ line := by
  obtain ⟨hid, hf1, hf2, hf3, hstart, hend, hcat, hnotes, _⟩ := hg
  obtain ⟨t, ht⟩ := Option.isSome_iff_exists.mp hstart
  rw [lineOf_eq DM s t ht hend] at hline
  have hl : line = _ := (Option.some.injEq _ _).mp hline.symm
  subst hl
  intro hmem
  have hnq : ('\n' = ',' → False) := by decide
  simp only [List.mem_append, List.mem_cons] at hmem
  rcases hmem with h | h | h | h | h | h | h | h | h | h | h | h | h | h | h | h | h
  · exact no_nl_of_needsQuote_false hid h
  · exact hnq h
  · exact not_mem_escRaw (by decide) hf1.1 h
  · exact hnq h
  · exact not_mem_escRaw (by decide) hf2.1 h
  · exact hnq h
  · exact not_mem_escRaw (by decide) hf3.1 h
  · exact hnq h
  · exact no_nl_of_needsQuote_false (DM.clean t) h
  · exact hnq h
  · exact no_nl_of_needsQuote_false (needsQuote_endStrOf DM s.endTime) h
  · exact hnq h
  · exact no_nl_of_needsQuote_false (needsQuote_jsNumRepr s.duration) h
  · exact hnq h
  · exact not_mem_escapeCSV (show ('\n' : Char) ≠ '"' by decide)
      (fun v hv => by
        rw [hv] at hcat
        exact hcat.2.1) h
  · exact hnq h
  · exact not_mem_escapeCSV (show ('\n' : Char) ≠ '"' by decide)
      (fun v hv => by
        rw [hv] at hnotes
        exact hnotes.2.1) h

/-- Under the well-behavedness conditions a serialized row does not end in a
carriage return (so the `\r?\n` split does not eat its last character). -/
theorem lineOf_getLast {D : Type} (DM : DateModel D) (s : Session D)
    (hg : goodSession s) (line : Str) (hline : lineOf DM s = some line) :
    line.getLast? ≠ some '\r' := by
  obtain ⟨hid, hf1, hf2, hf3, hstart, hend, hcat, hnotes, hlast⟩ := hg
  obtain ⟨t, ht⟩ := Option.isSome_iff_exists.mp hstart
  rw [lineOf_eq DM s t ht hend] at hline
  have hl : line = _ := (Option.some.injEq _ _).mp hline.symm
  subst hl
  have hsuffix : ∀ l1 l2 : Str, l2.getLast? ≠ some '\r' → l2 ≠ [] →
      (l1 ++ l2).getLast? ≠ some '\r' := by
    intro l1 l2 h hne
    rwa [List.getLast?_append_of_ne_nil _ hne]
  have hcons : ∀ (c : Char) (l : Str), l ≠ [] → l.getLast? ≠ some '\r' →
      (c :: l).getLast? ≠ some '\r' := by
    intro c l hne h
    rw [show (c :: l : Str) = [c] ++ l from rfl]
    rwa [List.getLast?_append_of_ne_nil _ hne]
  refine hsuffix _ _ ?_ (by simp)
  refine hcons ',' _ (by simp) ?_
  refine hsuffix _ _ ?_ (by simp)
  refine hcons ',' _ (by simp) ?_
  refine hsuffix _ _ ?_ (by simp)
  refine hcons ',' _ (by simp) ?_
  refine hsuffix _ _ ?_ (by simp)
  refine hcons ',' _ (by simp) ?_
  refine hsuffix _ _ ?_ (by simp)
  refine hcons ',' _ (by simp) ?_
  refine hsuffix _ _ ?_ (by simp)
  refine hcons ',' _ (by simp) ?_
  refine hsuffix _ _ ?_ (by simp)
  refine hcons ',' _ (by simp) ?_
  refine hsuffix _ _ ?_ (by simp)
  rcases he : escapeCSV s.notes with _ | ⟨c, cs⟩
  · simp
  · rw [he] at hlast
    exact hcons ',' _ (by simp) hlast

theorem splitRN_cons_append (l rest : Str) (hnl : '\n' ∉ l)
    (hcr : l.getLast? ≠ some '\r') :
    splitRN (l ++ '\n' :: rest) = l :: splitRN rest := by
  induction l with
  | nil => rfl
  | cons c l' ih =>
    have hc : c ≠ '\n' := fun he => hnl (he ▸ List.mem_cons_self c l')
    have hnl' : '\n' ∉ l' := fun hm => hnl (List.mem_cons_of_mem c hm)
    have hcr' : l'.getLast? ≠ some '\r' := by
      cases l' with
      | nil => simp
      | cons d l'' => rwa [List.getLast?_cons_cons] at hcr
    have hihx := ih hnl' hcr'
    rw [List.cons_append, splitRN.eq_4 c _ (fun he => hc he) ?harm3, hihx]
    case harm3 =>
      intro r1 hc1 h2
      cases l' with
      | nil =>
        subst hc1
        exact hcr (by simp)
      | cons d l'' =>
        rw [List.cons_append] at h2
        have hd : d = '\n' := by injection h2
        exact hnl' (by simp [hd])

theorem jsTrim_ne_nil_of_mem {l : Str} {c : Char} (hc : c ∈ l)
    (hw : isJsWS c = false) : jsTrim l ≠ [] := by
  intro h
  unfold jsTrim at h
  rw [List.reverse_eq_nil_iff, List.dropWhile_eq_nil_iff] at h
  have h2 : ∀ x ∈ l.dropWhile isJsWS, isJsWS x = true := by
    intro x hx
    exact h x (by simpa using hx)
  have h3 : ∀ x ∈ l, isJsWS x = true := by
    intro x hx
    rw [← List.takeWhile_append_dropWhile (p := isJsWS) (l := l)] at hx
    rcases List.mem_append.mp hx with h4 | h4
    · exact List.mem_takeWhile_imp h4
    · exact h2 x h4
  rw [h3 c hc] at hw
  exact absurd hw (by simp)

theorem comma_mem_lineOf {D : Type} (DM : DateModel D) (s : Session D) (t : D)
    (hstart : s.startTime = some t) (hend : s.endTime ≠ some none)
    (line : Str) (hline : lineOf DM s = some line) : ',' ∈ line := by
  rw [lineOf_eq DM s t hstart hend] at hline
  have hl : line = _ := (Option.some.injEq _ _).mp hline.symm
  subst hl
  simp

/-! ## The full load-after-save round trip -/

theorem splitRN_nil : splitRN [] = [[]] := by
  rw [splitRN.eq_def]

/-- Loading the rows written for a list of well-behaved sessions parses them
all back. -/
theorem rows_parse_back {D : Type} (DM : DateModel D) (l : List (Session D))
    (hl : ∀ s ∈ l, goodSession s) (r : Str) (hr : rowsOf DM l = some r) :
    ((splitRN r).filter (fun x => jsTrim x ≠ [])).mapM
      (fun x => mkSession DM (parseCSVLine x)) = some l := by
  induction l generalizing r with
  | nil =>
    unfold rowsOf at hr
    have h0 : [] = r := by injection hr
    subst h0
    rw [splitRN_nil]
    rw [List.filter_cons_of_neg (by simp [jsTrim]), List.filter_nil]
    rfl
  | cons s rest ih =>
    have hgs := hl s (by simp)
    obtain ⟨t, ht⟩ := Option.isSome_iff_exists.mp hgs.2.2.2.2.1
    unfold rowsOf at hr
    rcases hline : lineOf DM s with _ | line
    · rw [hline] at hr; simp at hr
    · rcases hrest : rowsOf DM rest with _ | r'
      · rw [hline, hrest] at hr; simp at hr
      · rw [hline, hrest] at hr
        simp only [Option.some_bind, Option.pure_def, Option.some.injEq] at hr
        subst hr
        rw [splitRN_cons_append line r'
          (lineOf_no_newline DM s hgs line hline)
          (lineOf_getLast DM s hgs line hline)]
        rw [List.filter_cons_of_pos (by
          simp only [decide_eq_true_eq]
          exact jsTrim_ne_nil_of_mem
            (comma_mem_lineOf DM s t ht hgs.2.2.2.2.2.1 line hline) (by decide))]
        rw [List.mapM_cons]
        rw [mkSession_lineOf DM s hgs line hline,
          ih (fun x hx => hl x (by simp [hx])) r' hrest]
        rfl

/-- `loadSessionsFromFile` content-level behavior: loading the content written
by `saveSessionsToFile` for well-behaved sessions returns exactly those
sessions. -/
theorem loadContent_saveContentOf {D : Type} (DM : DateModel D)
    (l : List (Session D)) (hl : ∀ s ∈ l, goodSession s) (content : Str)
    (hc : saveContentOf DM l = some content) : loadContent DM content = l := by
  unfold saveContentOf at hc
  rcases hr : rowsOf DM l with _ | r
  · rw [hr] at hc; simp at hc
  · rw [hr] at hc
    simp only [Option.map_some', Option.some.injEq] at hc
    subst hc
    unfold loadContent
    rw [splitRN_cons_append HEADER r (by decide) (by decide)]
    simp only [List.tail_cons]
    rw [rows_parse_back DM l hl r hr]

/-! ## Filesystem model

A file system maps paths (strings) to file contents; `none` means the file
does not exist.  `fs.existsSync p` is `(fs p).isSome`;
`fs.writeFileSync`/`copyFileSync`/`unlinkSync` are updates. -/

def FS : Type := Str → Option Str

/-- Write (or delete, with `none`) at a path. -/
def fsWrite (fs : FS) (p : Str) (v : Option Str) : FS :=
  fun q => if q = p then v else fs q

theorem fsWrite_self (fs : FS) (p : Str) (v : Option Str) : fsWrite fs p v p = v := by
  simp [fsWrite]

theorem fsWrite_other (fs : FS) (p q : Str) (v : Option Str) (h : q ≠ p) :
    fsWrite fs p v q = fs q := by
  simp [fsWrite, h]

/-- `"${filePath}.backup"`. -/
def backupPathOf (p : Str) : Str := p ++ ".backup".toList

/-! ## `DatabaseService.saveSessionsToFile` (databaseService.ts:159-215)

The serialized content is built first; then 1. back up the existing file,
2. write the new content, 3. remove the backup.  A write failure (injected
through `writeFails`, modelling `writeFileSync` throwing) or a serialization
exception lands in the `catch` block, which restores from the backup when one
exists.  The returned flag is `true` when the catch block ran (an error
message was shown); the function itself never throws. -/

def saveSessionsToFile {D : Type} (DM : DateModel D) (sessions : List (Session D))
    (filePath : Str) (fs : FS) (writeFails : Bool) : FS × Bool :=
  let bp := backupPathOf filePath
  match saveContentOf DM sessions with
  | none =>
    -- exception while building the content: no fs changes yet; restore path
    (if (fs bp).isSome then fsWrite fs filePath (fs bp) else fs, true)
  | some content =>
    -- 1. create backup of existing file if it exists
    let fs1 := if (fs filePath).isSome then fsWrite fs bp (fs filePath) else fs
    if writeFails then
      -- catch: try to restore from backup if available
      (if (fs1 bp).isSome then fsWrite fs1 filePath (fs1 bp) else fs1, true)
    else
      -- 2. write new content, 3. remove backup if present
      let fs2 := fsWrite fs1 filePath (some content)
      let fs3 := if (fs2 bp).isSome then fsWrite fs2 bp none else fs2
      (fs3, false)

/-! ## `DatabaseService.saveSession` (databaseService.ts:119-154) -/

/-- `formatDateToString`: `date.toISOString().split("T")[0]`
(databaseService.ts:69-71). -/
def formatDateToString {D : Type} (DM : DateModel D) (d : D) : Str :=
  (DM.toISO d).takeWhile (fun c => c ≠ 'T')

/-- `getFilePathForDay` (databaseService.ts:76-79):
`path.join(baseDirectory, "time-tracking-YYYY-MM-DD.csv")`. -/
def getFilePathForDay (base : Str) (dateString : Str) : Str :=
  base ++ '/' :: ("time-tracking-".toList ++ dateString ++ ".csv".toList)

/-- The replace-or-append step of `saveSession` (databaseService.ts:131-137):
`findIndex` by `id`, replace in place if found, else `push`. -/
def replaceOrAppend {D : Type} (l : List (Session D)) (s : Session D) :
    List (Session D) :=
  match l.findIdx? (fun x => x.id == s.id) with
  | some i => l.set i s
  | none => l ++ [s]

/-- The in-memory list and file system owned by a `DatabaseService`. -/
structure DB (D : Type) where
  sessions : List (Session D)
  fs : FS

/-- `ensureFileExists` (databaseService.ts:84-95): create the day file with
the header when absent. -/
def ensureFileExists (fs : FS) (p : Str) : FS :=
  if (fs p).isSome then fs else fsWrite fs p (some (HEADER ++ ['\n']))

/-- `loadSessionsFromFile` (databaseService.ts:272-309): a missing file
yields `[]`; otherwise parse the content (see `loadContent`). -/
def loadSessionsFromFile {D : Type} (DM : DateModel D) (fs : FS) (p : Str) :
    List (Session D) :=
  match fs p with
  | none => []
  | some c => loadContent DM c

/-- `saveSession(session)` (databaseService.ts:119-154).  `now` is the
current clock reading used by `new Date()`; `writeFails` injects a write
failure into the inner `saveSessionsToFile`.  The returned flag reports
whether an error message was surfaced.  An invalid `startTime` makes
`getFilePathForDay(new Date(session.startTime))` throw, caught by the outer
`catch` before any state is touched. -/
def saveSession {D : Type} (DM : DateModel D) (base : Str) (db : DB D)
    (s : Session D) (now : D) (writeFails : Bool) : DB D × Bool :=
  match s.startTime with
  | none => (db, true)
  | some t =>
    let key := formatDateToString DM t
    let p := getFilePathForDay base key
    let fs0 := ensureFileExists db.fs p
    let daily := loadSessionsFromFile DM fs0 p
    let daily2 := replaceOrAppend daily s
    -- update in-memory sessions if this is today's data (before the write)
    let mem := if key = formatDateToString DM now then daily2 else db.sessions
    let (fs2, err) := saveSessionsToFile DM daily2 p fs0 writeFails
    (⟨mem, fs2⟩, err)

/-! ## `DatabaseService.migrateFromSingleFile` (databaseService.ts:462-503) -/

/-- Insertion-ordered grouping (a JS `Map` keeps insertion order). -/
def groupInsert {D : Type} (acc : List (Str × List (Session D))) (key : Str)
    (s : Session D) : List (Str × List (Session D)) :=
  match acc.findIdx? (fun kv => kv.1 == key) with
  | some i => acc.set i ((acc.get? i).getD (key, []) |>.1, ((acc.get? i).getD (key, [])).2 ++ [s])
  | none => acc ++ [(key, [s])]

/-- `sessionsByDay` grouping loop of `migrateFromSingleFile`
(databaseService.ts:472-480); defined for sessions with valid `startTime`
(an invalid one throws from `formatDateToString`, checked by the caller). -/
def groupByDay {D : Type} (DM : DateModel D) (l : List (Session D)) :
    List (Str × List (Session D)) :=
  l.foldl (fun acc s =>
    match s.startTime with
    | some t => groupInsert acc (formatDateToString DM t) s
    | none => acc) []

/-- The per-group write loop of `migrateFromSingleFile`
(databaseService.ts:483-487): `new Date(dateKey)`, path for that date,
`saveSessionsToFile` (which swallows its own errors).  A key that parses as
an invalid date makes `formatDateToString` throw, aborting the loop (caught
by the surrounding `catch`, which returns `false` with the earlier writes
kept). -/
def migrateGo {D : Type} (DM : DateModel D) (base : Str) :
    List (Str × List (Session D)) → FS → FS × Bool
  | [], fs => (fs, true)
  | (key, group) :: rest, fs =>
    match DM.fromString key with
    | none => (fs, false)
    | some d =>
      let (fs', _) := saveSessionsToFile DM group
        (getFilePathForDay base (formatDateToString DM d)) fs false
      migrateGo DM base rest fs'

/-- `migrateFromSingleFile(oldFilePath)` (databaseService.ts:462-503).
Returns the updated file system and the boolean result.  Note the function
has no migrated-marker: nothing prevents it from running again. -/
def migrateFromSingleFile {D : Type} (DM : DateModel D) (base : Str)
    (oldFilePath : Str) (fs : FS) : FS × Bool :=
  match fs oldFilePath with
  | none => (fs, false)
  | some content =>
    let oldSessions := loadContent DM content
    if oldSessions.all (fun s => s.startTime.isSome) then
      let (fs1, ok) := migrateGo DM base (groupByDay DM oldSessions) fs
      if ok then
        -- copy the old file to `${oldFilePath}.bak`; the old file is kept
        (fsWrite fs1 (oldFilePath ++ ".bak".toList) (fs1 oldFilePath), true)
      else (fs1, false)
    else
      -- formatDateToString threw during grouping, before any write
      (fs, false)

/-! ## Session state machine — `TimeTrackerModel` (timeTracker.ts:22-217)

Clock readings are integers (epoch milliseconds).  The editor context is the
active editor's file path together with the optional workspace folder name;
`none` embeds "no active editor". -/

/-- The active-editor context read by `startTracking`/`handleEditorChange`. -/
structure Ctx where
  filePath : Str
  workspaceName : Option Str
  deriving DecidableEq

/-- `filePath.split(/[\\/]/).pop() || ""` (timeTracker.ts:64): the part after
the last slash or backslash, with a trailing separator (or empty pop result)
giving `""`. -/
def baseNameOf (p : Str) : Str :=
  p.foldl (fun acc c => if c = '/' ∨ c = '\\' then [] else acc ++ [c]) []

/-- A session as the tracker creates it (valid dates, integral duration). -/
structure TSession where
  id : Str
  fileName : Str
  filePath : Str
  project : Str
  startTime : Int
  endTime : Option Int
  duration : Int
  category : Option Str
  notes : Option Str
  deriving DecidableEq

/-- The mutable fields of `TimeTrackerModel` used by the lifecycle
(timeTracker.ts:23-25). -/
structure TrackerSt where
  sessions : List TSession
  current : Option TSession
  lastActiveFile : Option Str
  deriving DecidableEq

/-- `endCurrentSession` (timeTracker.ts:195-216): close the open session at
`now`, push a copy onto the in-memory list, clear `current`. -/
def endCurrentSession (st : TrackerSt) (now : Int) : TrackerSt :=
  match st.current with
  | none => st
  | some c =>
    { st with
      sessions := st.sessions ++
        [{ c with endTime := some now, duration := now - c.startTime }]
      current := none }

/-- `startTracking` (timeTracker.ts:55-90): with no active editor, warn and
return; otherwise end any current session, then open a new one at `now`. -/
def startTracking (st : TrackerSt) (editor : Option Ctx) (now : Int) : TrackerSt :=
  match editor with
  | none => st
  | some e =>
    let st1 := endCurrentSession st now
    { st1 with
      current := some
        { id := jsIntRepr now
          fileName := baseNameOf e.filePath
          filePath := e.filePath
          project := e.workspaceName.getD "No Project".toList
          startTime := now
          endTime := none
          duration := 0
          category := none
          notes := none }
      lastActiveFile := some e.filePath }

/-- `stopTracking` (timeTracker.ts:95-99). -/
def stopTracking (st : TrackerSt) (now : Int) : TrackerSt :=
  endCurrentSession st now

/-- `handleEditorChange` (timeTracker.ts:104-119): with no editor continue
tracking; if tracking and the file changed, end the session and start a new
one (the nested `startTracking` re-reads the same active editor). -/
def handleEditorChange (st : TrackerSt) (editor : Option Ctx) (now : Int) :
    TrackerSt :=
  match editor with
  | none => st
  | some e =>
    if st.current.isSome ∧ st.lastActiveFile ≠ some e.filePath then
      startTracking (endCurrentSession st now) (some e) now
    else st

/-- The externally-driven events of the lifecycle. -/
inductive TrackEv where
  | start (editor : Option Ctx)
  | stop
  | change (editor : Option Ctx)
  deriving DecidableEq

/-- One step of the state machine at clock reading `now`. -/
def trackStep (st : TrackerSt) : TrackEv × Int → TrackerSt
  | (TrackEv.start e, now) => startTracking st e now
  | (TrackEv.stop, now) => stopTracking st now
  | (TrackEv.change e, now) => handleEditorChange st e now

/-- Run a timed event trace. -/
def trackRun (st : TrackerSt) (evs : List (TrackEv × Int)) : TrackerSt :=
  evs.foldl trackStep st

/-- Event times are nondecreasing and bounded below by `t`. -/
def timesMono : Int → List (TrackEv × Int) → Prop
  | _, [] => True
  | t, (_, n) :: rest => t ≤ n ∧ timesMono n rest

/-- The initial state (timeTracker.ts:23-25 with an empty store). -/
def trackInit : TrackerSt := ⟨[], none, none⟩

/-- A session is open iff its `endTime` is unset. -/
def openCount (st : TrackerSt) : Nat :=
  (st.sessions.filter (fun s => s.endTime = none)).length +
    (match st.current with | some _ => 1 | none => 0)

/-- The inductive invariant: every stored session is closed with
`endTime ≥ startTime`, and the open session (if any) started no later than
the clock. -/
def TrackInv (t : Int) (st : TrackerSt) : Prop :=
  (∀ x ∈ st.sessions, ∃ e, x.endTime = some e ∧ x.startTime ≤ e) ∧
  (∀ c, st.current = some c → c.startTime ≤ t ∧ c.endTime = none)

theorem trackInv_init (t : Int) : TrackInv t trackInit := by
  constructor
  · intro x hx
    simp [trackInit] at hx
  · intro c hc
    simp [trackInit] at hc

theorem trackInv_endCurrent {t : Int} {st : TrackerSt} (h : TrackInv t st)
    {now : Int} (hn : t ≤ now) : TrackInv now (endCurrentSession st now) := by
  obtain ⟨h1, h2⟩ := h
  unfold endCurrentSession
  rcases hc : st.current with _ | c
  · exact ⟨h1, fun c hc2 => (h2 c (hc ▸ hc2)).imp (fun h => le_trans h hn) id⟩
  · constructor
    · intro x hx
      simp only [List.mem_append, List.mem_singleton] at hx
      rcases hx with hx | hx
      · exact h1 x hx
      · subst hx
        exact ⟨now, rfl, le_trans (h2 c hc).1 hn⟩
    · intro c2 hc2
      simp at hc2

theorem trackInv_start {t : Int} {st : TrackerSt} (h : TrackInv t st)
    (e : Option Ctx) {now : Int} (hn : t ≤ now) :
    TrackInv now (startTracking st e now) := by
  rcases e with _ | e
  · exact ⟨h.1, fun c hc => ((h.2 c hc).imp (fun hh => le_trans hh hn) id)⟩
  · have h' := trackInv_endCurrent h hn
    unfold startTracking
    constructor
    · exact h'.1
    · intro c hc
      simp only [Option.some.injEq] at hc
      subst hc
      exact ⟨le_refl now, rfl⟩

theorem trackInv_step {t : Int} {st : TrackerSt} (h : TrackInv t st)
    (ev : TrackEv) {now : Int} (hn : t ≤ now) :
    TrackInv now (trackStep st (ev, now)) := by
  cases ev with
  | start e => exact trackInv_start h e hn
  | stop => exact trackInv_endCurrent h hn
  | change e =>
    rcases e with _ | e
    · exact ⟨h.1, fun c hc => ((h.2 c hc).imp (fun hh => le_trans hh hn) id)⟩
    · show TrackInv now (if st.current.isSome = true ∧
        st.lastActiveFile ≠ some e.filePath then
          startTracking (endCurrentSession st now) (some e) now else st)
      by_cases hcnd : st.current.isSome = true ∧ st.lastActiveFile ≠ some e.filePath
      · rw [if_pos hcnd]
        exact trackInv_start (trackInv_endCurrent h hn) (some e) (le_refl now)
      · rw [if_neg hcnd]
        exact ⟨h.1, fun c hc => ((h.2 c hc).imp (fun hh => le_trans hh hn) id)⟩

theorem trackInv_run {t : Int} {st : TrackerSt} (h : TrackInv t st)
    (evs : List (TrackEv × Int)) (hm : timesMono t evs) :
    ∃ t', TrackInv t' (trackRun st evs) := by
  induction evs generalizing st t with
  | nil => exact ⟨t, h⟩
  | cons ev rest ih =>
    obtain ⟨hn, hrest⟩ := hm
    exact ih (trackInv_step h ev.1 hn) hrest

theorem openCount_le_one_of_inv {t : Int} {st : TrackerSt} (h : TrackInv t st) :
    openCount st ≤ 1 := by
  obtain ⟨h1, _⟩ := h
  unfold openCount
  have hz : (st.sessions.filter (fun s => s.endTime = none)).length = 0 := by
    rw [List.length_eq_zero, List.filter_eq_nil_iff]
    intro x hx
    obtain ⟨e, he, _⟩ := h1 x hx
    simp [he]
  rw [hz]
  rcases st.current with _ | c <;> simp

/-! ## Idle monitor — `IdleDetector` (idleDetection.ts:6-148) -/

/-- The state relevant to idle transitions (idleDetection.ts:7-11). -/
structure IdleSt where
  lastActivity : Int
  idleThreshold : Int
  idleDetected : Bool
  deriving DecidableEq

/-- `checkIdleState` (idleDetection.ts:80-89); the flag reports whether
`onIdleDetected` was called. -/
def checkIdleState (st : IdleSt) (now : Int) : IdleSt × Bool :=
  if now - st.lastActivity > st.idleThreshold ∧ st.idleDetected = false then
    ({ st with idleDetected := true }, true)
  else (st, false)

/-- `recordActivity` (idleDetection.ts:65-75); the flag reports whether
`onUserReturned` was called. -/
def recordActivity (st : IdleSt) (now : Int) : IdleSt × Bool :=
  let st1 := { st with lastActivity := now }
  if st1.idleDetected then ({ st1 with idleDetected := false }, true)
  else (st1, false)

/-- Run a sequence of periodic checks, counting idle notifications. -/
def runChecks (st : IdleSt) : List Int → IdleSt × Nat
  | [] => (st, 0)
  | now :: rest =>
    let (st1, fired) := checkIdleState st now
    let (st2, k) := runChecks st1 rest
    (st2, (if fired then 1 else 0) + k)

/-! ## Concrete millisecond date model

Modelled from the spec: "Timestamps serialize as ISO-8601 strings" —
`Date.prototype.toISOString` renders the instant in UTC.  The JS runtime's
calendar computation (ECMA-262 `YearFromTime` etc.) is embedded through the
standard civil-from-days algorithm; years outside 0-9999 (ECMA extended
years) are not modelled.  This concrete model is used for the partition-key
claims, where UTC-versus-local matters. -/

/-- Days since 1970-01-01 to (year, month, day) in the proleptic Gregorian
calendar. -/
def civilFromDays (z0 : Int) : Int × Int × Int :=
  let z := z0 + 719468
  let era := z.fdiv 146097
  let doe := z - era * 146097
  let yoe := (doe - doe.fdiv 1460 + doe.fdiv 36524 - doe.fdiv 146096).fdiv 365
  let y := yoe + era * 400
  let doy := doe - (365 * yoe + yoe.fdiv 4 - yoe.fdiv 100)
  let mp := (5 * doy + 2).fdiv 153
  let d := doy - (153 * mp + 2).fdiv 5 + 1
  let m := mp + (if mp < 10 then 3 else -9)
  (if m ≤ 2 then y + 1 else y, m, d)

/-- Left-pad with zeros to a given width. -/
def padZ (w : Nat) (s : Str) : Str := List.replicate (w - s.length) '0' ++ s

/-- The `YYYY-MM-DD` part of `toISOString` (UTC). -/
def isoDatePartMs (t : Int) : Str :=
  let days := t.fdiv 86400000
  let ymd := civilFromDays days
  padZ 4 (jsIntRepr ymd.1) ++ '-' :: (padZ 2 (jsIntRepr ymd.2.1) ++
    '-' :: padZ 2 (jsIntRepr ymd.2.2))

/-- The `hh:mm:ss.mmm` part of `toISOString` (UTC), with the trailing `Z`. -/
def isoTimePartMs (t : Int) : Str :=
  let ms := t.fmod 86400000
  padZ 2 (jsIntRepr (ms.fdiv 3600000)) ++ ':' ::
    (padZ 2 (jsIntRepr ((ms.fmod 3600000).fdiv 60000)) ++ ':' ::
    (padZ 2 (jsIntRepr ((ms.fmod 60000).fdiv 1000)) ++ '.' ::
    (padZ 3 (jsIntRepr (ms.fmod 1000)) ++ ['Z'])))

/-- `Date.prototype.toISOString` on epoch milliseconds. -/
def jsToISOStringMs (t : Int) : Str := isoDatePartMs t ++ 'T' :: isoTimePartMs t

/-- `formatDateToString` over the concrete model:
`toISOString().split("T")[0]` (databaseService.ts:69-71). -/
def formatDateToStringMs (t : Int) : Str :=
  (jsToISOStringMs t).takeWhile (fun c => c ≠ 'T')

/-- `getFilePathForDay` over the concrete model (databaseService.ts:76-79). -/
def getFilePathForDayMs (base : Str) (t : Int) : Str :=
  getFilePathForDay base (formatDateToStringMs t)

/-- The machine-local calendar date of an instant.  JS
`Date.prototype.getTimezoneOffset` returns UTC − local in minutes, so the
local wall-clock reading of instant `t` is `t - tzOffsetMinutes * 60000`
interpreted on the UTC calendar. -/
def localDateStringMs (tzOffsetMinutes : Int) (t : Int) : Str :=
  formatDateToStringMs (t - tzOffsetMinutes * 60000)

theorem takeWhile_append_of_stop {p : Char → Bool} (l1 l2 : Str) (c : Char)
    (h1 : ∀ x ∈ l1, p x = true) (hc : p c = false) :
    (l1 ++ c :: l2).takeWhile p = l1 := by
  induction l1 with
  | nil => simp [List.takeWhile_cons, hc]
  | cons x xs ih =>
    rw [List.cons_append, List.takeWhile_cons, h1 x (by simp)]
    simp [ih (fun y hy => h1 y (by simp [hy]))]

theorem isDigit_ne_T {c : Char} (h : c.isDigit = true) : c ≠ 'T' := by
  intro he; rw [he] at h; simp at h

theorem no_T_natRepr (n : Nat) : ∀ c ∈ natRepr n, c ≠ 'T' :=
  fun c hc => isDigit_ne_T (natRepr_all_digits n c hc)

theorem no_T_jsIntRepr (i : Int) : ∀ c ∈ jsIntRepr i, c ≠ 'T' := by
  intro c hc
  unfold jsIntRepr at hc
  by_cases hi : i < 0
  · rw [if_pos hi] at hc
    rcases List.mem_cons.mp hc with h | h
    · subst h; decide
    · exact no_T_natRepr _ c h
  · rw [if_neg hi] at hc
    exact no_T_natRepr _ c hc

theorem no_T_padZ (w : Nat) (s : Str) (hs : ∀ c ∈ s, c ≠ 'T') :
    ∀ c ∈ padZ w s, c ≠ 'T' := by
  intro c hc
  unfold padZ at hc
  rcases List.mem_append.mp hc with h | h
  · rw [List.eq_of_mem_replicate h]; decide
  · exact hs c h

theorem no_T_isoDatePart (t : Int) : ∀ c ∈ isoDatePartMs t, c ≠ 'T' := by
  intro c hc
  unfold isoDatePartMs at hc
  simp only [List.mem_append, List.mem_cons] at hc
  rcases hc with h | h | h | h | h
  · exact no_T_padZ 4 _ (no_T_jsIntRepr _) c h
  · subst h; decide
  · exact no_T_padZ 2 _ (no_T_jsIntRepr _) c h
  · subst h; decide
  · exact no_T_padZ 2 _ (no_T_jsIntRepr _) c h

/-- The partition key of the concrete model is exactly the UTC calendar date
rendered by `toISOString`. -/
theorem formatDateToStringMs_eq_datePart (t : Int) :
    formatDateToStringMs t = isoDatePartMs t := by
  unfold formatDateToStringMs jsToISOStringMs
  exact takeWhile_append_of_stop _ _ 'T'
    (fun x hx => by
      have := no_T_isoDatePart t x hx
      simpa using this)
    (by simp)

theorem getFilePathForDay_inj (base k1 k2 : Str)
    (h : getFilePathForDay base k1 = getFilePathForDay base k2) : k1 = k2 := by
  unfold getFilePathForDay at h
  have h2 := List.append_cancel_left h
  injection h2 with _ h3
  have h4 := List.append_cancel_right h3
  exact List.append_cancel_left h4

/-! ## Behavior of the backup-write path -/

theorem backupPathOf_ne (p : Str) : backupPathOf p ≠ p := by
  intro h
  have := congrArg List.length h
  simp [backupPathOf] at this

/-- Successful write: the file holds the new content, the backup is gone,
no error is reported. -/
theorem saveSessionsToFile_ok {D : Type} (DM : DateModel D)
    (l : List (Session D)) (p : Str) (fs : FS) (c : Str)
    (hc : saveContentOf DM l = some c) :
    (saveSessionsToFile DM l p fs false).1 p = some c ∧
    (saveSessionsToFile DM l p fs false).1 (backupPathOf p) = none ∧
    (saveSessionsToFile DM l p fs false).2 = false := by
  unfold saveSessionsToFile
  rw [hc]
  by_cases hex : (fs p).isSome
  · simp only [if_pos hex, Bool.false_eq_true, if_false]
    have hb : (fsWrite (fsWrite fs (backupPathOf p) (fs p)) p (some c)
        (backupPathOf p)).isSome = true := by
      rw [fsWrite_other _ _ _ _ (backupPathOf_ne p), fsWrite_self]
      exact hex
    rw [if_pos hb]
    refine ⟨?_, ?_, trivial⟩
    · rw [fsWrite_other _ _ _ _ (backupPathOf_ne p).symm, fsWrite_self]
    · rw [fsWrite_self]
  · simp only [if_neg hex, Bool.false_eq_true, if_false]
    by_cases hb : (fsWrite fs p (some c) (backupPathOf p)).isSome
    · rw [if_pos hb]
      refine ⟨?_, ?_, trivial⟩
      · rw [fsWrite_other _ _ _ _ (backupPathOf_ne p).symm, fsWrite_self]
      · rw [fsWrite_self]
    · rw [if_neg hb]
      refine ⟨fsWrite_self _ _ _, ?_, trivial⟩
      rwa [Option.not_isSome_iff_eq_none] at hb

/-- Failed write over an existing file: the content is restored from the
backup and an error is reported. -/
theorem saveSessionsToFile_fail {D : Type} (DM : DateModel D)
    (l : List (Session D)) (p : Str) (fs : FS) (c : Str)
    (hex : (fs p).isSome = true) (hc : saveContentOf DM l = some c) :
    (saveSessionsToFile DM l p fs true).1 p = fs p ∧
    (saveSessionsToFile DM l p fs true).2 = true := by
  unfold saveSessionsToFile
  rw [hc]
  have hb : (fsWrite fs (backupPathOf p) (fs p) (backupPathOf p)).isSome = true := by
    rw [fsWrite_self]; exact hex
  simp [hex, hb, fsWrite_self]

/-- `saveSessionsToFile` touches only the target file and its backup. -/
theorem saveSessionsToFile_other {D : Type} (DM : DateModel D)
    (l : List (Session D)) (p : Str) (fs : FS) (wf : Bool) (q : Str)
    (hq : q ≠ p) (hqb : q ≠ backupPathOf p) :
    (saveSessionsToFile DM l p fs wf).1 q = fs q := by
  unfold saveSessionsToFile
  rcases saveContentOf DM l with _ | c
  · dsimp only
    by_cases hbb : (fs (backupPathOf p)).isSome = true
    · rw [if_pos hbb]
      show fsWrite fs p (fs (backupPathOf p)) q = fs q
      rw [fsWrite_other _ _ _ _ hq]
    · rw [if_neg hbb]
  · dsimp only
    set fs1 := if (fs p).isSome = true then fsWrite fs (backupPathOf p) (fs p) else fs
      with hfs1
    have h1 : fs1 q = fs q := by
      rw [hfs1]
      split
      · rw [fsWrite_other _ _ _ _ hqb]
      · rfl
    cases wf with
    | true =>
      simp only [if_true]
      by_cases hbb : (fs1 (backupPathOf p)).isSome = true
      · rw [if_pos hbb]
        show fsWrite fs1 p (fs1 (backupPathOf p)) q = fs q
        rw [fsWrite_other _ _ _ _ hq]
        exact h1
      · rw [if_neg hbb]
        exact h1
    | false =>
      simp only [Bool.false_eq_true, if_false]
      by_cases hbb : (fsWrite fs1 p (some c) (backupPathOf p)).isSome = true
      · rw [if_pos hbb]
        show fsWrite (fsWrite fs1 p (some c)) (backupPathOf p) none q = fs q
        rw [fsWrite_other _ _ _ _ hqb, fsWrite_other _ _ _ _ hq]
        exact h1
      · rw [if_neg hbb]
        show fsWrite fs1 p (some c) q = fs q
        rw [fsWrite_other _ _ _ _ hq]
        exact h1

/-! ## Behavior of the replace-or-append step -/

theorem replaceOrAppend_nil {D : Type} (s : Session D) :
    replaceOrAppend [] s = [s] := by
  unfold replaceOrAppend
  rfl

theorem replaceOrAppend_cons {D : Type} (x : Session D) (l : List (Session D))
    (s : Session D) :
    replaceOrAppend (x :: l) s =
      if x.id = s.id then s :: l else x :: replaceOrAppend l s := by
  unfold replaceOrAppend
  rw [List.findIdx?_cons]
  by_cases h : x.id = s.id
  · rw [if_pos (by simpa using h), if_pos h]
    rfl
  · rw [if_neg (by simpa using h), if_neg h]
    rcases hf : l.findIdx? (fun y => y.id == s.id) with _ | i
    · simp [hf]
    · simp [hf]

theorem mem_ids_replaceOrAppend {D : Type} {l : List (Session D)}
    {s : Session D} {y : Str} (hy : y ∈ (replaceOrAppend l s).map Session.id) :
    y ∈ l.map Session.id ∨ y = s.id := by
  induction l with
  | nil =>
    rw [replaceOrAppend_nil] at hy
    simp at hy
    exact Or.inr hy
  | cons x l ih =>
    rw [replaceOrAppend_cons] at hy
    by_cases hx : x.id = s.id
    · rw [if_pos hx] at hy
      simp only [List.map_cons, List.mem_cons] at hy
      rcases hy with h | h
      · exact Or.inr h
      · exact Or.inl (by simp [h])
    · rw [if_neg hx] at hy
      simp only [List.map_cons, List.mem_cons] at hy
      rcases hy with h | h
      · exact Or.inl (by simp [h])
      · rcases ih h with h2 | h2
        · exact Or.inl (by
            simp only [List.map_cons, List.mem_cons]
            exact Or.inr h2)
        · exact Or.inr h2

theorem replaceOrAppend_filter {D : Type} [DecidableEq D]
    (l : List (Session D)) (s : Session D)
    (hnd : (l.map Session.id).Nodup) :
    (replaceOrAppend l s).filter (fun x => x.id == s.id) = [s] := by
  induction l with
  | nil =>
    rw [replaceOrAppend_nil]
    simp
  | cons x l ih =>
    rw [replaceOrAppend_cons]
    simp only [List.map_cons, List.nodup_cons] at hnd
    by_cases hx : x.id = s.id
    · rw [if_pos hx]
      rw [List.filter_cons_of_pos (by simp)]
      have hnone : l.filter (fun x => x.id == s.id) = [] := by
        rw [List.filter_eq_nil_iff]
        intro a ha
        simp only [beq_iff_eq]
        intro he
        apply hnd.1
        rw [hx, ← he]
        exact List.mem_map_of_mem Session.id ha
      rw [hnone]
    · rw [if_neg hx]
      rw [List.filter_cons_of_neg (by simpa using hx)]
      exact ih hnd.2

theorem replaceOrAppend_nodup {D : Type} (l : List (Session D)) (s : Session D)
    (hnd : (l.map Session.id).Nodup) :
    ((replaceOrAppend l s).map Session.id).Nodup := by
  induction l with
  | nil =>
    rw [replaceOrAppend_nil]
    simp
  | cons x l ih =>
    simp only [List.map_cons, List.nodup_cons] at hnd
    rw [replaceOrAppend_cons]
    by_cases hx : x.id = s.id
    · rw [if_pos hx]
      simp only [List.map_cons, List.nodup_cons]
      exact ⟨hx ▸ hnd.1, hnd.2⟩
    · rw [if_neg hx]
      simp only [List.map_cons, List.nodup_cons]
      refine ⟨?_, ih hnd.2⟩
      intro hmem
      rcases mem_ids_replaceOrAppend hmem with h | h
      · exact hnd.1 h
      · exact hx h

theorem foldl_replaceOrAppend_nodup {D : Type} (saves : List (Session D)) :
    ((saves.foldl replaceOrAppend []).map Session.id).Nodup := by
  have hgen : ∀ (acc : List (Session D)), (acc.map Session.id).Nodup →
      ((saves.foldl replaceOrAppend acc).map Session.id).Nodup := by
    induction saves with
    | nil => intro acc h; simpa using h
    | cons s rest ih =>
      intro acc h
      rw [List.foldl_cons]
      exact ih _ (replaceOrAppend_nodup acc s h)
  exact hgen [] (by simp)

theorem replaceOrAppend_append_of_not_mem {D : Type} (l : List (Session D))
    (s : Session D) (h : s.id ∉ l.map Session.id) :
    replaceOrAppend l s = l ++ [s] := by
  induction l with
  | nil => exact replaceOrAppend_nil s
  | cons x l ih =>
    simp only [List.map_cons, List.mem_cons] at h
    push_neg at h
    rw [replaceOrAppend_cons, if_neg (fun he => h.1 he.symm), ih h.2]
    rfl

theorem replaceOrAppend_length_of_mem {D : Type} (l : List (Session D))
    (s : Session D) (h : s.id ∈ l.map Session.id) :
    (replaceOrAppend l s).length = l.length := by
  unfold replaceOrAppend
  rcases hf : l.findIdx? (fun y => y.id == s.id) with _ | i
  · exfalso
    rw [List.findIdx?_eq_none_iff] at hf
    obtain ⟨x, hx, hxid⟩ := List.mem_map.mp h
    have := hf x hx
    simp [hxid] at this
  · rw [hf]
    exact List.length_set l i s

/-! ## Idle monitor lemmas -/

theorem checkIdleState_of_detected (st : IdleSt) (now : Int)
    (h : st.idleDetected = true) : checkIdleState st now = (st, false) := by
  unfold checkIdleState
  rw [if_neg]
  simp [h]

theorem runChecks_of_detected (st : IdleSt) (h : st.idleDetected = true)
    (checks : List Int) : runChecks st checks = (st, 0) := by
  induction checks with
  | nil => rfl
  | cons now rest ih =>
    unfold runChecks
    rw [checkIdleState_of_detected st now h]
    simp only
    rw [ih]
    simp

/-! ## Migration lemmas -/

/-- The partition path a group is written to (`new Date(dateKey)` then
`getFilePathForDay`); `none` when the key re-parses as an invalid date. -/
def groupPath {D : Type} (DM : DateModel D) (base : Str)
    (kg : Str × List (Session D)) : Option Str :=
  (DM.fromString kg.1).map (fun d => getFilePathForDay base (formatDateToString DM d))

theorem migrateGo_ok {D : Type} (DM : DateModel D) (base : Str)
    (groups : List (Str × List (Session D))) (fs : FS)
    (h : ∀ kg ∈ groups, (DM.fromString kg.1).isSome = true) :
    (migrateGo DM base groups fs).2 = true := by
  induction groups generalizing fs with
  | nil => rfl
  | cons kg rest ih =>
    unfold migrateGo
    obtain ⟨d, hd⟩ := Option.isSome_iff_exists.mp (h kg (by simp))
    rw [hd]
    exact ih _ (fun kg2 h2 => h kg2 (by simp [h2]))

theorem migrateGo_untouched {D : Type} (DM : DateModel D) (base : Str)
    (groups : List (Str × List (Session D))) (fs : FS) (q : Str)
    (h : ∀ kg ∈ groups, ∀ pb, groupPath DM base kg = some pb →
      q ≠ pb ∧ q ≠ backupPathOf pb) :
    (migrateGo DM base groups fs).1 q = fs q := by
  induction groups generalizing fs with
  | nil => rfl
  | cons kg rest ih =>
    unfold migrateGo
    rcases hd : DM.fromString kg.1 with _ | d
    · rfl
    · simp only
      have hq := h kg (by simp) (getFilePathForDay base (formatDateToString DM d))
        (by simp [groupPath, hd])
      rw [ih _ (fun kg2 h2 => h kg2 (by simp [h2])),
        saveSessionsToFile_other DM _ _ _ _ _ hq.1 hq.2]

theorem migrateGo_writes {D : Type} (DM : DateModel D) (base : Str)
    (groups : List (Str × List (Session D))) (fs : FS)
    (kg : Str × List (Session D)) (p : Str) (c : Str)
    (hmem : kg ∈ groups) (hp : groupPath DM base kg = some p)
    (hc : saveContentOf DM kg.2 = some c)
    (hall : ∀ kg2 ∈ groups, (DM.fromString kg2.1).isSome = true)
    (hdist : groups.Pairwise (fun a b => ∀ pa pb, groupPath DM base a = some pa →
      groupPath DM base b = some pb → pa ≠ pb ∧ pa ≠ backupPathOf pb)) :
    (migrateGo DM base groups fs).1 p = some c := by
  induction groups generalizing fs with
  | nil => simp at hmem
  | cons kg0 rest ih =>
    rw [List.pairwise_cons] at hdist
    rcases List.mem_cons.mp hmem with he | he
    · subst he
      unfold migrateGo
      obtain ⟨d, hd, hpd⟩ : ∃ d, DM.fromString kg.1 = some d ∧
          p = getFilePathForDay base (formatDateToString DM d) := by
        unfold groupPath at hp
        rcases hx : DM.fromString kg.1 with _ | d
        · rw [hx] at hp; simp at hp
        · rw [hx] at hp
          simp only [Option.map_some', Option.some.injEq] at hp
          exact ⟨d, rfl, hp.symm⟩
      rw [hd]
      simp only
      rw [migrateGo_untouched DM base rest _ p
        (fun kg2 h2 pb hpb => hdist.1 kg2 h2 p pb hp hpb)]
      subst hpd
      exact (saveSessionsToFile_ok DM kg.2 _ fs c hc).1
    · unfold migrateGo
      rcases hd : DM.fromString kg0.1 with _ | d
      · exact absurd (Option.isSome_iff_exists.mp (hall kg0 (by simp))) (by simp [hd])
      · simp only
        exact ih _ he (fun kg2 h2 => hall kg2 (by simp [h2])) hdist.2

/-- On a successful run, `migrateFromSingleFile` is the partition rewrite
followed by the `.bak` copy of the retained old file. -/
theorem migrateFromSingleFile_run {D : Type} (DM : DateModel D) (base old : Str)
    (fs : FS) (content : Str) (hold : fs old = some content)
    (hvalid : (loadContent DM content).all (fun s => s.startTime.isSome) = true)
    (hok : (migrateGo DM base (groupByDay DM (loadContent DM content)) fs).2 = true) :
    migrateFromSingleFile DM base old fs =
      (fsWrite (migrateGo DM base (groupByDay DM (loadContent DM content)) fs).1
        (old ++ ".bak".toList)
        ((migrateGo DM base (groupByDay DM (loadContent DM content)) fs).1 old),
       true) := by
  unfold migrateFromSingleFile
  rw [hold]
  simp only [hvalid, if_true]
  rw [show (migrateGo DM base (groupByDay DM (loadContent DM content)) fs) =
    ((migrateGo DM base (groupByDay DM (loadContent DM content)) fs).1, true) from
    Prod.ext rfl hok]
  rfl

/-! ## saveSession unfolding -/

theorem ensureFileExists_other (fs : FS) (p q : Str) (hq : q ≠ p) :
    ensureFileExists fs p q = fs q := by
  unfold ensureFileExists
  split
  · rfl
  · rw [fsWrite_other _ _ _ _ hq]

theorem saveSession_spec {D : Type} (DM : DateModel D) (base : Str) (db : DB D)
    (s : Session D) (t : D) (now : D) (wf : Bool) (hs : s.startTime = some t) :
    saveSession DM base db s now wf =
      (⟨if formatDateToString DM t = formatDateToString DM now then
          replaceOrAppend (loadSessionsFromFile DM
            (ensureFileExists db.fs (getFilePathForDay base (formatDateToString DM t)))
            (getFilePathForDay base (formatDateToString DM t))) s
        else db.sessions,
        (saveSessionsToFile DM
          (replaceOrAppend (loadSessionsFromFile DM
            (ensureFileExists db.fs (getFilePathForDay base (formatDateToString DM t)))
            (getFilePathForDay base (formatDateToString DM t))) s)
          (getFilePathForDay base (formatDateToString DM t))
          (ensureFileExists db.fs (getFilePathForDay base (formatDateToString DM t)))
          wf).1⟩,
       (saveSessionsToFile DM
          (replaceOrAppend (loadSessionsFromFile DM
            (ensureFileExists db.fs (getFilePathForDay base (formatDateToString DM t)))
            (getFilePathForDay base (formatDateToString DM t))) s)
          (getFilePathForDay base (formatDateToString DM t))
          (ensureFileExists db.fs (getFilePathForDay base (formatDateToString DM t)))
          wf).2) := by
  unfold saveSession
  rw [hs]

/-! ## Concrete sample data (used by witnesses and counterexamples) -/

/-- A valid concrete date. -/
def d1 : DStr := ⟨"2025-05-06T10:00:00.000Z".toList, by decide⟩

/-- A second valid concrete date, later the same day. -/
def d2 : DStr := ⟨"2025-05-06T10:30:00.000Z".toList, by decide⟩

/-- A closed, well-behaved session (the spec's append-fast-path scenario). -/
def sessA : Session DStr :=
  { id := "1".toList
    fileName := "main.ts".toList
    filePath := "/w/main.ts".toList
    project := "demo".toList
    startTime := some d1
    endTime := some (some d2)
    duration := some 1800000
    category := some "Coding".toList
    notes := none }

/-- `sessA` with a newline inside `notes`. -/
def sessNL : Session DStr := { sessA with notes := some "line1\nline2".toList }

/-- `sessA` updated in place (same `id`, new notes). -/
def sessA2 : Session DStr := { sessA with notes := some "revised".toList }

/-- A distinct session on the same day (fresh `id`). -/
def sessB : Session DStr := { sessA with id := "2".toList }

/-- `sessA` with a comma inside the unescaped `id` column. -/
def sessComma : Session DStr := { sessA with id := "1,junk".toList }

/-- Storage base directory used by concrete scenarios. -/
def base0 : Str := "/data".toList

/-- The empty file system. -/
def fsEmpty : FS := fun _ => none

/-- The partition file content for `[sessA]`. -/
def contentGood : Str := (saveContentOf strDM [sessA]).getD []

/-- The partition path for `sessA`'s day. -/
def pA : Str := getFilePathForDay base0 (formatDateToString strDM d1)

/-- A partition file whose single data line parses to fewer than four
fields. -/
def fsWithBad : FS :=
  fsWrite fsEmpty pA (some (HEADER ++ '\n' :: ("garbage".toList ++ ['\n'])))

theorem mapM_eq_none_of_mem {α β : Type} (f : α → Option β) (l : List α)
    (x : α) (hx : x ∈ l) (hf : f x = none) : l.mapM f = none := by
  induction l with
  | nil => simp at hx
  | cons a l ih =>
    rw [List.mapM_cons]
    rcases List.mem_cons.mp hx with he | he
    · subst he
      rw [hf]
      rfl
    · rw [ih he]
      cases f a <;> rfl

/-! ## The claims -/

/-- C1 (counterexample): serializing a session whose `notes` contain a
newline and parsing the partition content back does not return the session —
the quoted newline is split by the loader's `split(/\r?\n/)`, so the claimed
round trip for "all field combinations including ... newlines" fails. -/
theorem claim_C1_counterexample :
    (saveContentOf strDM [sessNL]).isSome = true ∧
    loadContent strDM ((saveContentOf strDM [sessNL]).getD []) ≠ [sessNL] := by
  decide

/-- C1 (amended): serializing sessions to the partition encoding and parsing
the content back yields the identical sessions, for all sessions whose
string fields contain commas or double quotes — but with no newline in any
field, no field that `parseCSVValue` would strip a second time (a value both
starting and ending with a double quote, other than the single character
`"`), absent-or-nonempty `category`/`notes`, a separator-free `id`, a valid
`startTime`, no invalid `endTime`, and a serialized `notes` column that does
not end in a carriage return. -/
theorem claim_C1_round_trip {D : Type} (DM : DateModel D)
    (l : List (Session D)) (hl : ∀ s ∈ l, goodSession s) (content : Str)
    (hc : saveContentOf DM l = some content) : loadContent DM content = l :=
  loadContent_saveContentOf DM l hl content hc

/-- C1 (witness): the round trip at a concrete well-behaved session. -/
theorem claim_C1_witness :
    (∀ s ∈ [sessA], goodSession s) ∧
    saveContentOf strDM [sessA] = some ((saveContentOf strDM [sessA]).getD []) ∧
    loadContent strDM ((saveContentOf strDM [sessA]).getD []) = [sessA] :=
  ⟨by decide, by decide,
    claim_C1_round_trip strDM [sessA] (by decide) _ (by decide)⟩

/-- C2 (counterexample): with the machine in UTC+1 (JS
`getTimezoneOffset() = -60`), the instants 1970-01-01T23:30Z and
1970-01-02T00:30Z fall on the same local calendar date, yet their sessions
are stored in different partition files — the partition is not determined by
the local date. -/
theorem claim_C2_counterexample :
    localDateStringMs (-60) 84600000 = localDateStringMs (-60) 88200000 ∧
    getFilePathForDayMs base0 84600000 ≠ getFilePathForDayMs base0 88200000 := by
  decide

/-- C2 (amended): the day partition is determined by the calendar date of
`startTime` in UTC, not local time: the partition key is exactly the
`YYYY-MM-DD` UTC date part of `toISOString`, two instants share a partition
file iff they share that UTC date string, and `saveSession` touches no file
other than the partition named by its session's UTC date key (and that
file's backup). -/
theorem claim_C2_utc_partition :
    (∀ t : Int, formatDateToStringMs t = isoDatePartMs t) ∧
    (∀ (base : Str) (t1 t2 : Int),
      formatDateToStringMs t1 = formatDateToStringMs t2 ↔
      getFilePathForDayMs base t1 = getFilePathForDayMs base t2) ∧
    (∀ {D : Type} (DM : DateModel D) (base : Str) (db : DB D) (s : Session D)
      (t : D) (now : D) (wf : Bool) (q : Str), s.startTime = some t →
      q ≠ getFilePathForDay base (formatDateToString DM t) →
      q ≠ backupPathOf (getFilePathForDay base (formatDateToString DM t)) →
      (saveSession DM base db s now wf).1.fs q = db.fs q) := by
  refine ⟨formatDateToStringMs_eq_datePart, ?_, ?_⟩
  · intro base t1 t2
    constructor
    · intro h
      unfold getFilePathForDayMs
      rw [h]
    · intro h
      exact getFilePathForDay_inj base _ _ h
  · intro D DM base db s t now wf q hs hq hqb
    rw [saveSession_spec DM base db s t now wf hs]
    show (saveSessionsToFile DM _ _ (ensureFileExists db.fs _) wf).1 q = db.fs q
    rw [saveSessionsToFile_other DM _ _ _ _ _ hq hqb,
      ensureFileExists_other _ _ _ hq]

/-- C2 (witness): `saveSession` at a concrete session leaves an unrelated
path untouched. -/
theorem claim_C2_witness :
    sessA.startTime = some d1 ∧
    "/other".toList ≠ getFilePathForDay base0 (formatDateToString strDM d1) ∧
    "/other".toList ≠ backupPathOf (getFilePathForDay base0 (formatDateToString strDM d1)) ∧
    (saveSession strDM base0 ⟨[], fsEmpty⟩ sessA d1 false).1.fs "/other".toList =
      fsEmpty "/other".toList :=
  ⟨by decide, by decide, by decide,
    claim_C2_utc_partition.2.2 strDM base0 ⟨[], fsEmpty⟩ sessA d1 d1 false
      "/other".toList (by decide) (by decide) (by decide)⟩

/-- C3 (counterexample): appending one malformed line (one that parses to
fewer than four fields) to a partition holding one well-formed record makes
`loadSessionsFromFile` return `[]` — the well-formed record becomes
inaccessible, contradicting "one corrupt line never makes the rest of the
day's data inaccessible". -/
theorem claim_C3_counterexample :
    loadContent strDM (contentGood ++ "xxx\n".toList) = ([] : List (Session DStr)) ∧
    loadContent strDM contentGood = [sessA] := by
  decide

/-- C3 (amended): a missing partition file loads as `[]`; but a single
malformed line — one whose parse yields fewer than four fields, so that
`parseCSVValue(values[1..3])` throws — causes the `catch` around the whole
load to return `[]`, discarding every well-formed record of the same file
(lines with four or more fields are instead accepted without validation). -/
theorem claim_C3_load_behavior :
    (∀ {D : Type} (DM : DateModel D) (fs : FS) (p : Str), fs p = none →
      loadSessionsFromFile DM fs p = []) ∧
    (∀ {D : Type} (DM : DateModel D) (content : Str) (line : Str),
      line ∈ (splitRN content).tail → jsTrim line ≠ [] →
      (parseCSVLine line).length < 4 → loadContent DM content = []) := by
  constructor
  · intro D DM fs p hp
    unfold loadSessionsFromFile
    rw [hp]
  · intro D DM content line h1 h2 h3
    unfold loadContent
    have hmem2 : line ∈ ((splitRN content).tail).filter
        (fun l => decide (jsTrim l ≠ [])) :=
      List.mem_filter.mpr ⟨h1, by simpa using h2⟩
    have hnone : mkSession DM (parseCSVLine line) = none := by
      unfold mkSession
      rw [if_pos h3]
    dsimp only
    rw [mapM_eq_none_of_mem (fun l => mkSession DM (parseCSVLine l)) _ line
      hmem2 hnone]

/-- C3 (witness): the malformed-line behavior at a concrete partition. -/
theorem claim_C3_witness :
    fsEmpty "/nofile".toList = none ∧
    loadSessionsFromFile strDM fsEmpty "/nofile".toList = ([] : List (Session DStr)) ∧
    ("xxx".toList ∈ (splitRN (contentGood ++ "xxx\n".toList)).tail ∧
      jsTrim "xxx".toList ≠ [] ∧
      (parseCSVLine "xxx".toList).length < 4) ∧
    loadContent strDM (contentGood ++ "xxx\n".toList) = ([] : List (Session DStr)) :=
  ⟨rfl, claim_C3_load_behavior.1 strDM fsEmpty "/nofile".toList rfl,
    ⟨by decide, by decide, by decide⟩,
    claim_C3_load_behavior.2 strDM (contentGood ++ "xxx\n".toList)
      "xxx".toList (by decide) (by decide) (by decide)⟩

/-- C4 (counterexample): there is no append fast path — `saveSession` always
rewrites the whole partition.  Saving a fresh-id session into a partition
whose only data line is malformed replaces the entire file with header plus
the new row: the previously stored line is gone, which an append that avoids
a full rewrite could never do. -/
theorem claim_C4_counterexample :
    (fsWithBad pA).isSome = true ∧
    (saveSession strDM base0 ⟨[], fsWithBad⟩ sessA d1 false).1.fs pA =
      some (HEADER ++ '\n' :: ((lineOf strDM sessA).getD [] ++ ['\n'])) ∧
    (saveSession strDM base0 ⟨[], fsWithBad⟩ sessA d1 false).1.fs pA ≠
      some ((fsWithBad pA).getD [] ++ ((lineOf strDM sessA).getD [] ++ ['\n'])) := by
  decide

/-- C4 (amended): `saveSession` resolves the target partition from
`session.startTime`'s (UTC) date, loads that partition's records, replaces
in place when `session.id` is already present (same record count) and
appends otherwise — and in both cases rewrites the entire partition file
with the serialization of the updated record list; there is no append fast
path. -/
theorem claim_C4_always_rewrites {D : Type} (DM : DateModel D) (base : Str)
    (db : DB D) (s : Session D) (t : D) (now : D) (p : Str)
    (daily : List (Session D)) (c : Str)
    (hs : s.startTime = some t)
    (hp : p = getFilePathForDay base (formatDateToString DM t))
    (hdaily : daily = loadSessionsFromFile DM (ensureFileExists db.fs p) p)
    (hc : saveContentOf DM (replaceOrAppend daily s) = some c) :
    (saveSession DM base db s now false).1.fs p = some c ∧
    (saveSession DM base db s now false).2 = false ∧
    (s.id ∉ daily.map Session.id → replaceOrAppend daily s = daily ++ [s]) ∧
    (s.id ∈ daily.map Session.id →
      (replaceOrAppend daily s).length = daily.length) := by
  subst hp
  subst hdaily
  rw [saveSession_spec DM base db s t now false hs]
  have hok := saveSessionsToFile_ok DM _
    (getFilePathForDay base (formatDateToString DM t))
    (ensureFileExists db.fs (getFilePathForDay base (formatDateToString DM t)))
    c hc
  exact ⟨hok.1, hok.2.2,
    replaceOrAppend_append_of_not_mem _ s,
    replaceOrAppend_length_of_mem _ s⟩

/-- C4 (witness): the full-rewrite behavior at a concrete save. -/
theorem claim_C4_witness :
    sessA.startTime = some d1 ∧
    pA = getFilePathForDay base0 (formatDateToString strDM d1) ∧
    saveContentOf strDM (replaceOrAppend
      (loadSessionsFromFile strDM (ensureFileExists fsWithBad pA) pA) sessA) =
      some contentGood ∧
    (saveSession strDM base0 ⟨[], fsWithBad⟩ sessA d1 false).1.fs pA =
      some contentGood :=
  ⟨rfl, rfl, by decide,
    (claim_C4_always_rewrites strDM base0 ⟨[], fsWithBad⟩ sessA d1 d1 pA _
      contentGood rfl rfl rfl (by decide)).1⟩

/-- C6 (counterexample): on a failed write the partition file is restored
and a warning flag is reported, but the in-memory session list has already
been replaced with the updated day list — it is not "left unchanged". -/
theorem claim_C6_counterexample :
    (saveSession strDM base0 ⟨[sessA], fsWrite fsEmpty pA (some contentGood)⟩
      sessB d1 true).2 = true ∧
    (saveSession strDM base0 ⟨[sessA], fsWrite fsEmpty pA (some contentGood)⟩
      sessB d1 true).1.fs pA = some contentGood ∧
    (saveSession strDM base0 ⟨[sessA], fsWrite fsEmpty pA (some contentGood)⟩
      sessB d1 true).1.sessions ≠ [sessA] := by
  decide

/-- C6 (amended): before overwriting an existing partition file a backup
copy is made; after a successful write the backup is removed and no error is
reported; on a write failure the file is restored from the backup and a
warning is surfaced without crashing (the functions are total and return an
error flag) — but the in-memory session list is replaced with the updated
day list before the write and is not rolled back on failure. -/
theorem claim_C6_write_safety :
    (∀ {D : Type} (DM : DateModel D) (l : List (Session D)) (p : Str)
      (fs : FS) (c : Str), saveContentOf DM l = some c →
      (saveSessionsToFile DM l p fs false).1 p = some c ∧
      (saveSessionsToFile DM l p fs false).1 (backupPathOf p) = none ∧
      (saveSessionsToFile DM l p fs false).2 = false) ∧
    (∀ {D : Type} (DM : DateModel D) (l : List (Session D)) (p : Str)
      (fs : FS) (c : Str), (fs p).isSome = true → saveContentOf DM l = some c →
      (saveSessionsToFile DM l p fs true).1 p = fs p ∧
      (saveSessionsToFile DM l p fs true).2 = true) ∧
    (∀ {D : Type} (DM : DateModel D) (base : Str) (db : DB D) (s : Session D)
      (t : D) (now : D) (wf : Bool), s.startTime = some t →
      formatDateToString DM t = formatDateToString DM now →
      (saveSession DM base db s now wf).1.sessions =
        replaceOrAppend (loadSessionsFromFile DM
          (ensureFileExists db.fs (getFilePathForDay base (formatDateToString DM t)))
          (getFilePathForDay base (formatDateToString DM t))) s) := by
  refine ⟨?_, ?_, ?_⟩
  · intro D DM l p fs c hc
    exact saveSessionsToFile_ok DM l p fs c hc
  · intro D DM l p fs c hex hc
    exact saveSessionsToFile_fail DM l p fs c hex hc
  · intro D DM base db s t now wf hs htoday
    rw [saveSession_spec DM base db s t now wf hs]
    show (if formatDateToString DM t = formatDateToString DM now then _ else _) = _
    rw [if_pos htoday]

/-- C6 (witness): backup semantics and the early in-memory update at a
concrete save. -/
theorem claim_C6_witness :
    saveContentOf strDM [sessA] = some contentGood ∧
    ((fsWrite fsEmpty pA (some contentGood)) pA).isSome = true ∧
    (saveSessionsToFile strDM [sessA] pA (fsWrite fsEmpty pA (some contentGood))
      true).1 pA = (fsWrite fsEmpty pA (some contentGood)) pA ∧
    sessA2.startTime = some d1 ∧
    (saveSession strDM base0 ⟨[sessA], fsWrite fsEmpty pA (some contentGood)⟩
      sessA2 d1 true).1.sessions =
      replaceOrAppend (loadSessionsFromFile strDM
        (ensureFileExists (fsWrite fsEmpty pA (some contentGood))
          (getFilePathForDay base0 (formatDateToString strDM d1)))
        (getFilePathForDay base0 (formatDateToString strDM d1))) sessA2 :=
  ⟨by decide, by decide,
    (claim_C6_write_safety.2.1 strDM [sessA] pA
      (fsWrite fsEmpty pA (some contentGood)) contentGood (by decide) (by decide)).1,
    by decide,
    claim_C6_write_safety.2.2 strDM base0
      ⟨[sessA], fsWrite fsEmpty pA (some contentGood)⟩ sessA2 d1 d1 true
      (by decide) (by decide)⟩

/-- C5: after any finite sequence of `startTracking`/`stopTracking`/
`handleEditorChange` events with nondecreasing clock readings, at most one
session is open (`endTime` unset), every stored session being closed; and
whenever `startTracking` runs with an active editor while a session is open,
that session is closed first — appended to the store with `endTime` set to
the current instant, which is at least its `startTime` — before the new
session is opened. -/
theorem claim_C5_exclusivity_rotation :
    (∀ (evs : List (TrackEv × Int)) (t0 : Int), timesMono t0 evs →
      openCount (trackRun trackInit evs) ≤ 1 ∧
      ∀ x ∈ (trackRun trackInit evs).sessions, x.endTime ≠ none) ∧
    (∀ (st : TrackerSt) (t now : Int) (c : TSession) (e : Ctx),
      TrackInv t st → st.current = some c → t ≤ now →
      (startTracking st (some e) now).sessions =
        st.sessions ++
          [({ c with endTime := some now, duration := now - c.startTime } : TSession)] ∧
      c.startTime ≤ now ∧
      (startTracking st (some e) now).current.isSome = true) := by
  constructor
  · intro evs t0 hm
    obtain ⟨t', hinv⟩ := trackInv_run (trackInv_init t0) evs hm
    refine ⟨openCount_le_one_of_inv hinv, ?_⟩
    intro x hx
    obtain ⟨e, he, _⟩ := hinv.1 x hx
    simp [he]
  · intro st t now c e hinv hcur hle
    refine ⟨?_, le_trans (hinv.2 c hcur).1 hle, ?_⟩
    · show (endCurrentSession st now).sessions = _
      unfold endCurrentSession
      rw [hcur]
    · unfold startTracking
      rfl

/-- C7: replacing-or-appending a session into a partition whose record ids
are distinct leaves exactly one record carrying that id — the new record —
and keeps the ids distinct; and any sequence of saves starting from an empty
partition never produces a duplicated id. -/
theorem claim_C7_no_duplicate_ids :
    (∀ {D : Type} [DecidableEq D] (l : List (Session D)) (s : Session D),
      (l.map Session.id).Nodup →
      (replaceOrAppend l s).filter (fun x => x.id == s.id) = [s] ∧
      ((replaceOrAppend l s).map Session.id).Nodup ∧
      (s.id ∈ l.map Session.id →
        (replaceOrAppend l s).length = l.length)) ∧
    (∀ {D : Type} (saves : List (Session D)),
      ((saves.foldl replaceOrAppend []).map Session.id).Nodup) := by
  constructor
  · intro D _ l s hnd
    exact ⟨replaceOrAppend_filter l s hnd, replaceOrAppend_nodup l s hnd,
      replaceOrAppend_length_of_mem l s⟩
  · intro D saves
    exact foldl_replaceOrAppend_nodup saves

/-- C7 (witness): updating an existing id in a concrete partition. -/
theorem claim_C7_witness :
    (([sessA, sessB].map Session.id).Nodup) ∧
    (replaceOrAppend [sessA, sessB] sessA2).filter
      (fun x => x.id == sessA2.id) = [sessA2] ∧
    ((replaceOrAppend [sessA, sessB] sessA2).map Session.id).Nodup ∧
    (replaceOrAppend [sessA, sessB] sessA2).length = 2 := by
  have h := claim_C7_no_duplicate_ids.1 [sessA, sessB] sessA2 (by decide)
  exact ⟨by decide, h.1, h.2.1, h.2.2 (by decide)⟩

/-- C8: once `now - lastActivity` exceeds the threshold while not yet idle,
the check fires the idle notification exactly once and marks the state idle;
while the state stays idle, any number of further periodic checks fires
nothing and changes nothing; `recordActivity` while idle fires the
user-returned notification exactly once and clears the idle flag, and while
not idle it fires nothing. -/
theorem claim_C8_idle_single_fire :
    (∀ (st : IdleSt) (now : Int), st.idleDetected = false →
      now - st.lastActivity > st.idleThreshold →
      checkIdleState st now = ({ st with idleDetected := true }, true)) ∧
    (∀ (st : IdleSt) (now : Int), st.idleDetected = true →
      checkIdleState st now = (st, false)) ∧
    (∀ (st : IdleSt) (checks : List Int), st.idleDetected = true →
      runChecks st checks = (st, 0)) ∧
    (∀ (st : IdleSt) (now : Int), st.idleDetected = true →
      recordActivity st now =
        ({ st with lastActivity := now, idleDetected := false }, true)) ∧
    (∀ (st : IdleSt) (now : Int), st.idleDetected = false →
      recordActivity st now = ({ st with lastActivity := now }, false)) := by
  refine ⟨?_, ?_, ?_, ?_, ?_⟩
  · intro st now h1 h2
    unfold checkIdleState
    rw [if_pos ⟨h2, h1⟩]
  · intro st now h
    exact checkIdleState_of_detected st now h
  · intro st checks h
    exact runChecks_of_detected st h checks
  · intro st now h
    unfold recordActivity
    simp [h]
  · intro st now h
    unfold recordActivity
    simp [h]

/-- C8 (witness): a concrete idle episode — detection fires once, repeated
checks stay silent, the return fires once. -/
theorem claim_C8_witness :
    checkIdleState ⟨0, 300000, false⟩ 400000 =
      (⟨0, 300000, true⟩, true) ∧
    runChecks ⟨0, 300000, true⟩ [460000, 520000, 580000] =
      (⟨0, 300000, true⟩, 0) ∧
    recordActivity ⟨0, 300000, true⟩ 600000 = (⟨600000, 300000, false⟩, true) ∧
    recordActivity ⟨600000, 300000, false⟩ 601000 =
      (⟨601000, 300000, false⟩, false) :=
  ⟨claim_C8_idle_single_fire.1 ⟨0, 300000, false⟩ 400000 rfl (by norm_num),
    claim_C8_idle_single_fire.2.2.1 ⟨0, 300000, true⟩ [460000, 520000, 580000] rfl,
    claim_C8_idle_single_fire.2.2.2.1 ⟨0, 300000, true⟩ 600000 rfl,
    claim_C8_idle_single_fire.2.2.2.2 ⟨600000, 300000, false⟩ 601000 rfl⟩

/-- An editor context on file `/w/a.ts` in workspace `w`. -/
def ctx0 : Ctx := ⟨"/w/a.ts".toList, some "w".toList⟩

/-- An editor context on file `/w/b.ts` in workspace `w`. -/
def ctx1 : Ctx := ⟨"/w/b.ts".toList, some "w".toList⟩

/-- A concrete event trace: start, file switch, stop. -/
def evs0 : List (TrackEv × Int) :=
  [(TrackEv.start (some ctx0), 5), (TrackEv.change (some ctx1), 7),
   (TrackEv.stop, 9)]

/-- The open session created at clock 5 on `/w/a.ts`. -/
def cWit : TSession :=
  ⟨jsIntRepr 5, baseNameOf "/w/a.ts".toList, "/w/a.ts".toList, "w".toList,
    5, none, 0, none, none⟩

/-- A tracker state with one open session. -/
def stWit : TrackerSt := ⟨[], some cWit, some "/w/a.ts".toList⟩

/-- C5 (witness): the exclusivity bound on a concrete trace and the rotation
equation at a concrete open state. -/
theorem claim_C5_witness :
    (timesMono 0 evs0 ∧ openCount (trackRun trackInit evs0) ≤ 1) ∧
    (TrackInv 5 stWit ∧ stWit.current = some cWit ∧ (5 : Int) ≤ 7 ∧
      (startTracking stWit (some ctx1) 7).sessions =
        stWit.sessions ++ [({ cWit with endTime := some (7 : Int), duration := 7 - cWit.startTime } : TSession)]) := by
  have hm : timesMono 0 evs0 := by
    simp only [evs0, timesMono]
    norm_num
  have hinv : TrackInv 5 stWit := by
    constructor
    · intro x hx
      simp [stWit] at hx
    · intro c hc
      simp only [stWit, Option.some.injEq] at hc
      rw [← hc]
      exact ⟨by norm_num [cWit], rfl⟩
  exact ⟨⟨hm, (claim_C5_exclusivity_rotation.1 evs0 0 hm).1⟩,
    hinv, rfl, by norm_num,
    (claim_C5_exclusivity_rotation.2 stWit 5 7 cWit ctx1 hinv rfl
      (by norm_num)).1⟩

/-! ## C9 concrete migration scenario -/

/-- The legacy single-file store path. -/
def oldP : Str := "/old.csv".toList

/-- A file system holding only the legacy store with one session. -/
def fs9 : FS := fsWrite fsEmpty oldP (some contentGood)

/-- First migration run. -/
def mig1 : FS × Bool := migrateFromSingleFile strDM base0 oldP fs9

/-- The file system after the migrated partition is legitimately updated
(`sessA` superseded by `sessA2`). -/
def fs9b : FS := (saveSession strDM base0 ⟨[], mig1.1⟩ sessA2 d1 false).1.fs

/-- Second migration run, after the partition was updated. -/
def mig2 : FS × Bool := migrateFromSingleFile strDM base0 oldP fs9b

/-- C9 (counterexample): `migrateFromSingleFile` never marks migration
complete, so a second invocation after a completed migration is not a no-op:
it reloads the retained legacy file and overwrites the partition, clobbering
an update made after the first migration. -/
theorem claim_C9_counterexample :
    mig1.2 = true ∧
    mig1.1 pA = some contentGood ∧
    fs9b pA = some ((saveContentOf strDM [sessA2]).getD []) ∧
    mig2.2 = true ∧
    mig2.1 pA = some contentGood ∧
    mig2.1 pA ≠ fs9b pA := by
  decide

/-- C9 (amended): `migrateFromSingleFile` is a no-op returning `false` when
the legacy file is absent; otherwise it loads all legacy records, groups
them by derived (UTC) date key, writes each group as its own partition,
retains the original flat store unchanged and additionally copies it to
`<old>.bak`, and returns `true` — but it does not mark migration complete,
so nothing prevents it from running again (see the counterexample). -/
theorem claim_C9_migration :
    (∀ {D : Type} (DM : DateModel D) (base : Str) (old : Str) (fs : FS),
      fs old = none → migrateFromSingleFile DM base old fs = (fs, false)) ∧
    (∀ {D : Type} (DM : DateModel D) (base : Str) (old : Str) (fs : FS)
      (content : Str), fs old = some content →
      (loadContent DM content).all (fun s => s.startTime.isSome) = true →
      (∀ kg ∈ groupByDay DM (loadContent DM content),
        (DM.fromString kg.1).isSome = true) →
      (∀ kg ∈ groupByDay DM (loadContent DM content), ∀ pb,
        groupPath DM base kg = some pb →
        old ≠ pb ∧ old ≠ backupPathOf pb ∧
        old ++ ".bak".toList ≠ pb ∧ old ++ ".bak".toList ≠ backupPathOf pb) →
      (groupByDay DM (loadContent DM content)).Pairwise
        (fun a b => ∀ pa pb, groupPath DM base a = some pa →
          groupPath DM base b = some pb → pa ≠ pb ∧ pa ≠ backupPathOf pb) →
      (migrateFromSingleFile DM base old fs).2 = true ∧
      (migrateFromSingleFile DM base old fs).1 old = some content ∧
      (migrateFromSingleFile DM base old fs).1 (old ++ ".bak".toList) =
        some content ∧
      (∀ kg ∈ groupByDay DM (loadContent DM content), ∀ p c,
        groupPath DM base kg = some p → saveContentOf DM kg.2 = some c →
        (migrateFromSingleFile DM base old fs).1 p = some c)) := by
  constructor
  · intro D DM base old fs h
    unfold migrateFromSingleFile
    rw [h]
  · intro D DM base old fs content hold hvalid hkeys hpaths hdist
    have hbakne : old ≠ old ++ ".bak".toList := by
      intro h
      have := congrArg List.length h
      simp at this
    have hgo2 : (migrateGo DM base (groupByDay DM (loadContent DM content)) fs).2 =
        true := migrateGo_ok DM base _ fs hkeys
    have hgo1 : (migrateGo DM base (groupByDay DM (loadContent DM content)) fs).1
        old = fs old :=
      migrateGo_untouched DM base _ fs old
        (fun kg hkg pb hpb => ⟨(hpaths kg hkg pb hpb).1, (hpaths kg hkg pb hpb).2.1⟩)
    rw [migrateFromSingleFile_run DM base old fs content hold hvalid hgo2]
    dsimp only
    refine ⟨rfl, ?_, ?_, ?_⟩
    · rw [fsWrite_other _ _ _ _ hbakne, hgo1, hold]
    · rw [fsWrite_self, hgo1, hold]
    · intro kg hkg p c hp hc
      have hpne : p ≠ old ++ ".bak".toList := fun h =>
        (hpaths kg hkg p hp).2.2.1 h.symm
      rw [fsWrite_other _ _ _ _ hpne]
      exact migrateGo_writes DM base _ fs kg p c hkg hp hc hkeys hdist

/-- C9 (witness): the migration contract at the concrete one-session legacy
store — no-op on a missing file, and a successful run retains the legacy
file, copies it to `.bak`, and writes the day partition. -/
theorem claim_C9_witness :
    fsEmpty oldP = none ∧
    migrateFromSingleFile strDM base0 oldP fsEmpty = (fsEmpty, false) ∧
    fs9 oldP = some contentGood ∧
    mig1.2 = true ∧ mig1.1 oldP = some contentGood ∧
    mig1.1 (oldP ++ ".bak".toList) = some contentGood ∧
    mig1.1 pA = some contentGood := by
  have hG : groupByDay strDM (loadContent strDM contentGood) =
      [("2025-05-06".toList, [sessA])] := by decide
  have hold : fs9 oldP = some contentGood := by decide
  have hvalid : (loadContent strDM contentGood).all
      (fun s => s.startTime.isSome) = true := by decide
  have hkeys : ∀ kg ∈ groupByDay strDM (loadContent strDM contentGood),
      (strDM.fromString kg.1).isSome = true := by
    rw [hG]
    decide
  have hgp : groupPath strDM base0 ("2025-05-06".toList, [sessA]) = some pA := by
    decide
  have hpaths : ∀ kg ∈ groupByDay strDM (loadContent strDM contentGood), ∀ pb,
      groupPath strDM base0 kg = some pb →
      oldP ≠ pb ∧ oldP ≠ backupPathOf pb ∧
      oldP ++ ".bak".toList ≠ pb ∧ oldP ++ ".bak".toList ≠ backupPathOf pb := by
    rw [hG]
    intro kg hkg pb hpb
    rw [List.mem_singleton] at hkg
    subst hkg
    rw [hgp] at hpb
    injection hpb with h
    subst h
    decide
  have hdist : (groupByDay strDM (loadContent strDM contentGood)).Pairwise
      (fun a b => ∀ pa pb, groupPath strDM base0 a = some pa →
        groupPath strDM base0 b = some pb → pa ≠ pb ∧ pa ≠ backupPathOf pb) := by
    rw [hG]
    simp
  obtain ⟨h1, h2, h3, h4⟩ := claim_C9_migration.2 strDM base0 oldP fs9
    contentGood hold hvalid hkeys hpaths hdist
  exact ⟨rfl, claim_C9_migration.1 strDM base0 oldP fsEmpty rfl, hold,
    h1, h2, h3,
    h4 ("2025-05-06".toList, [sessA])
      (by rw [hG]; exact List.mem_singleton_self _) pA contentGood hgp
      (by decide)⟩

/-- C10: the serializer quotes/escapes only the `fileName`, `filePath`,
`project`, `category` and `notes` fields; the `id`, `startTime`, `endTime`
and `duration` fields are written verbatim.  Hence every session whose `id`
needs no quoting parses back into exactly the nine written fields, while the
concrete session `sessComma`, whose `id` contains a comma, parses into ten
shifted fields and reconstructs a different session. -/
theorem claim_C10_id_unescaped :
    (∀ {D : Type} (DM : DateModel D) (s : Session D) (t : D),
      s.startTime = some t → s.endTime ≠ some none →
      needsQuote s.id = false → ∀ line, lineOf DM s = some line →
      parseCSVLine line =
        [s.id, s.fileName, s.filePath, s.project, DM.toISO t,
         endStrOf DM s.endTime, jsNumRepr s.duration,
         s.category.getD [], s.notes.getD []]) ∧
    ((lineOf strDM sessComma).isSome = true ∧
     (parseCSVLine ((lineOf strDM sessComma).getD [])).length = 10 ∧
     (parseCSVLine ((lineOf strDM sessComma).getD [])).getD 0 [] = "1".toList ∧
     mkSession strDM (parseCSVLine ((lineOf strDM sessComma).getD [])) ≠
       some sessComma) :=
  ⟨fun DM s t hs he hi line hl => parseCSVLine_lineOf DM s t hs he hi line hl,
   by decide, by decide, by decide, by decide⟩

/-- C10 (witness): the nine-field parse of the clean-id session `sessA`. -/
theorem claim_C10_witness :
    sessA.startTime = some d1 ∧ sessA.endTime ≠ some none ∧
    needsQuote sessA.id = false ∧
    lineOf strDM sessA = some ((lineOf strDM sessA).getD []) ∧
    parseCSVLine ((lineOf strDM sessA).getD []) =
      [sessA.id, sessA.fileName, sessA.filePath, sessA.project,
       strDM.toISO d1, endStrOf strDM sessA.endTime, jsNumRepr sessA.duration,
       sessA.category.getD [], sessA.notes.getD []] :=
  ⟨by decide, by decide, by decide, by decide,
   claim_C10_id_unescaped.1 strDM sessA d1 (by decide) (by decide) (by decide)
     _ (by decide)⟩

end TimeTracking
